import Mathlib

/-!
boring-ci: a verification development of `main.go`.

A shallow embedding of the daemon's command handler, the build store behind it,
the dashboard client's state machine and `Build.Elapsed`, followed by theorems
about them.  Every definition names the lines of `main.go` it embeds.

Conventions:
* Go `int` is 64 bits wide: it is an `Int` kept in range by `wrapInt64`.
* Go `string` is a Lean `String` (well-formed UTF-8 text).
* A Go run-time panic is an explicit result (`panicked`, `Except.error`).
* What the operating system, the clock, the file system and the peer decide is an
  explicit argument of the function that observes it.
-/

namespace BoringCI

/-! ## Machine integers -/

/-- Least value of a Go `int` (64 bits). -/
def minInt64 : Int := -9223372036854775808

/-- Greatest value of a Go `int` (64 bits). -/
def maxInt64 : Int := 9223372036854775807

/-- Two's-complement wrap-around of an integer into the range of a Go `int`. -/
def wrapInt64 (x : Int) : Int :=
  (x + 9223372036854775808) % 18446744073709551616 - 9223372036854775808

/-- Clamp an integer into the range of an `int64` (used by `time.Time.Sub`). -/
def clampInt64 (x : Int) : Int :=
  if x < minInt64 then minInt64 else if maxInt64 < x then maxInt64 else x

/-! ## Data model (`main.go` lines 26-50) -/

/-- Constant `ViewDashboard = iota` (line 27). -/
def ViewDashboard : Int := 0

/-- Constant `ViewLogs` (line 28). -/
def ViewLogs : Int := 1

/-- An instant of `time.Time`, as nanoseconds since the Unix epoch. -/
abbrev Time := Int

/-- A `time.Duration`: a count of nanoseconds held in an `int64`. -/
abbrev Duration := Int

/-- Struct `Build` (lines 31-41); a nil `*time.Time` is `none`. -/
structure Build where
  ID : Int
  Repo : String
  Branch : String
  Commit : String
  Pipeline : String
  Status : String
  CreatedAt : String
  StartedAt : Option Time
  FinishedAt : Option Time
  deriving DecidableEq, Repr

/-- Struct `DashboardState` (lines 43-50) without its mutex: every access in the
program happens with `Mu` held, so the steps below are atomic. -/
structure DashboardState where
  Builds : List Build
  Logs : List String
  SelectedIndex : Int
  ActiveView : Int
  LogScrollIdx : Int
  deriving DecidableEq, Repr

/-- The value of `&DashboardState{}` (line 309): all fields zero. -/
def DashboardState.zero : DashboardState :=
  { Builds := [], Logs := [], SelectedIndex := 0, ActiveView := 0, LogScrollIdx := 0 }

/-! ## Dashboard client (`main.go` lines 312-365, 424-430) -/

deriving instance DecidableEq for Except

/-- Go's checked slice indexing `xs[i]`: a panic unless `0 ≤ i < len(xs)`. -/
def sliceIndex {α : Type} (xs : List α) (i : Int) : Except String α :=
  if i < 0 then
    .error ("index out of range [" ++ toString i ++ "]")
  else
    match xs.get? i.toNat with
    | some x => .ok x
    | none =>
      .error ("index out of range [" ++ toString i ++ "] with length "
        ++ toString xs.length)

/-- What one call of `render` draws.  The escape-coded text itself is not
modelled; a frame records the view that was drawn and the data it was drawn
from. -/
inductive Frame where
  /-- The build list (`renderDashboardView`), with the row `i == SelectedIndex`
  highlighted when there is one. -/
  | dashboard (builds : List Build) (highlighted : Option Nat)
  /-- The text "No build selected" (line 427). -/
  | noBuildSelected
  /-- The log view of build `b` with sidebar item `scroll` highlighted. -/
  | logView (b : Build) (scroll : Int)
  deriving DecidableEq, Repr

/-- Method `renderDashboardView` (lines 392-422): row `i` of `s.Builds` is
highlighted exactly when `i == s.SelectedIndex`. -/
def renderDashboardView (s : DashboardState) : Frame :=
  .dashboard s.Builds
    (if 0 ≤ s.SelectedIndex ∧ s.SelectedIndex < s.Builds.length
      then some s.SelectedIndex.toNat else none)

/-- Method `renderLogView` (lines 424-478): the guard of line 426, then the
indexing `s.Builds[s.SelectedIndex]` of line 430.  `s.Logs` is never assigned, so
the slicing of line 473 is not reached. -/
def renderLogView (s : DashboardState) : Except String Frame :=
  if s.Builds.length = 0 ∨ s.SelectedIndex ≥ s.Builds.length then
    .ok .noBuildSelected
  else
    match sliceIndex s.Builds s.SelectedIndex with
    | .ok b => .ok (.logView b s.LogScrollIdx)
    | .error msg => .error msg

/-- Method `render` (lines 353-365): the dashboard view when
`ActiveView == ViewDashboard`, the log view otherwise. -/
def render (s : DashboardState) : Except String Frame :=
  if s.ActiveView = ViewDashboard then .ok (renderDashboardView s)
  else renderLogView s

/-- The state updates of one pass of the input loop (lines 334-346) for a key that
did not leave the loop at line 332.  The `case 'q'` of line 342 is kept as written. -/
def applyKey (s : DashboardState) (char : Char) : DashboardState :=
  if s.ActiveView = ViewDashboard then
    if char = 'j' then { s with SelectedIndex := wrapInt64 (s.SelectedIndex + 1) }
    else if char = 'k' then { s with SelectedIndex := wrapInt64 (s.SelectedIndex - 1) }
    else if char = '\r' then { s with ActiveView := ViewLogs }
    else s
  else if s.ActiveView = ViewLogs then
    if char = 'q' ∨ char = '\x1b' then { s with ActiveView := ViewDashboard }
    else if char = 'j' then { s with LogScrollIdx := wrapInt64 (s.LogScrollIdx + 1) }
    else if char = 'k' then { s with LogScrollIdx := wrapInt64 (s.LogScrollIdx - 1) }
    else s
  else s

/-- Result of one pass of a client loop. -/
inductive StepResult where
  /-- The `return` of line 332: `runDashboardCLI` ends and the process exits. -/
  | exited
  /-- The state was updated and `render` completed. -/
  | rendered (s : DashboardState) (frame : Frame)
  /-- The state was updated and `render` panicked. -/
  | panicked (s : DashboardState) (msg : String)
  deriving DecidableEq, Repr

/-- The state a pass left behind, when the loop did not return. -/
def StepResult.state? : StepResult → Option DashboardState
  | .exited => none
  | .rendered s _ => some s
  | .panicked s _ => some s

/-- Update done, now `state.render()` (lines 320 and 348). -/
def renderStep (s : DashboardState) : StepResult :=
  match render s with
  | .ok frame => .rendered s frame
  | .error msg => .panicked s msg

/-- One pass of the input loop (lines 328-350) on the rune `char`. -/
def inputStep (s : DashboardState) (char : Char) : StepResult :=
  if char = 'q' ∨ char = '\x03' then .exited
  else renderStep (applyKey s char)

/-- One pass of the reader goroutine (lines 315-322) on a decoded snapshot. -/
def snapshotStep (s : DashboardState) (fresh : List Build) : StepResult :=
  renderStep { s with Builds := fresh }

/-- What the client reacts to; the mutex serialises the two loops. -/
inductive Event where
  | key (char : Char)
  | snapshot (fresh : List Build)
  deriving DecidableEq, Repr

/-- The dashboard client after a sequence of events. -/
inductive Client where
  | running (s : DashboardState)
  | exited
  | crashed (s : DashboardState) (msg : String)
  deriving DecidableEq, Repr

/-- One event. -/
def clientStep (s : DashboardState) : Event → StepResult
  | .key char => inputStep s char
  | .snapshot fresh => snapshotStep s fresh

/-- Run the client over a sequence of events, stopping at an exit or a panic. -/
def runEvents (s : DashboardState) : List Event → Client
  | [] => .running s
  | e :: rest =>
    match clientStep s e with
    | .exited => .exited
    | .rendered s' _ => runEvents s' rest
    | .panicked s' msg => .crashed s' msg

/-- The transition table of the dashboard as the specification words it, for keys
other than `q` and Ctrl-C: `j`/`k` move the cursor of the active view by one,
Enter opens the log view, Esc closes it, any other key changes nothing. -/
def transitionTable (s : DashboardState) (key : Char) : DashboardState :=
  if s.ActiveView = ViewDashboard then
    if key = 'j' then { s with SelectedIndex := s.SelectedIndex + 1 }
    else if key = 'k' then { s with SelectedIndex := s.SelectedIndex - 1 }
    else if key = '\r' then { s with ActiveView := ViewLogs }
    else s
  else if s.ActiveView = ViewLogs then
    if key = 'j' then { s with LogScrollIdx := s.LogScrollIdx + 1 }
    else if key = 'k' then { s with LogScrollIdx := s.LogScrollIdx - 1 }
    else if key = '\x1b' then { s with ActiveView := ViewDashboard }
    else s
  else s

/-- Both cursors can move one step either way without leaving the range of a Go
`int`. -/
def DashboardState.CursorsInside (s : DashboardState) : Prop :=
  (minInt64 < s.SelectedIndex ∧ s.SelectedIndex < maxInt64) ∧
  (minInt64 < s.LogScrollIdx ∧ s.LogScrollIdx < maxInt64)

instance (s : DashboardState) : Decidable s.CursorsInside := by
  unfold DashboardState.CursorsInside; infer_instance

/-! ## Build store (`main.go` lines 105-123, 198, 278-292) -/

/-- A row of table `builds` as `createSchema` declares it (lines 109-119).
`status` and `created_at` are never NULL: the one `INSERT` of the program
(line 279) leaves both to their defaults. -/
structure Row where
  id : Int
  repo : String
  branch : String
  commit_hash : String
  pipeline : String
  status : String
  created_at : String
  started_at : Option Time
  finished_at : Option Time
  deriving DecidableEq, Repr

/-- The database behind the global `db`: the rows of `builds` in insertion order
and the counter SQLite keeps for an `AUTOINCREMENT` key (`sqlite_sequence`), the
largest id the table ever held. -/
structure Store where
  rows : List Row
  seq : Int
  deriving DecidableEq, Repr

/-- The table right after `createSchema` on a fresh database file. -/
def Store.empty : Store := { rows := [], seq := 0 }

/-- Largest id among the rows, 0 for an empty table. -/
def maxId (rows : List Row) : Int :=
  rows.foldl (fun m r => max m r.id) 0

/-- No row holding the largest id ever was deleted: the counter is not ahead of
the table.  The program has no `DELETE`, so this holds of every store it built. -/
def Store.NoGap (st : Store) : Prop := st.seq ≤ maxId st.rows

instance (st : Store) : Decidable st.NoGap := by
  unfold Store.NoGap; infer_instance

/-- Statement `INSERT INTO builds (repo, branch, commit_hash, pipeline) VALUES
(?, ?, ?, ?)` (line 279) against the schema of lines 109-119.  `fault` is an
error the engine raises on its own (I/O, lock); `now` is `CURRENT_TIMESTAMP`.
The `AUTOINCREMENT` key is one more than the largest id ever used and the
statement fails once that is the largest `int64`. -/
def execInsert (fault : Option String) (now : String) (st : Store)
    (repo branch commit pipeline : String) : Except String (Store × Int) :=
  match fault with
  | some e => .error e
  | none =>
    let last := max st.seq (maxId st.rows)
    if maxInt64 ≤ last then .error "database or disk is full"
    else
      let row : Row :=
        { id := last + 1, repo := repo, branch := branch, commit_hash := commit,
          pipeline := pipeline, status := "pending", created_at := now,
          started_at := none, finished_at := none }
      .ok ({ rows := st.rows ++ [row], seq := last + 1 }, last + 1)

/-- The rows in `ORDER BY id DESC`. -/
def orderByIdDesc (rows : List Row) : List Row :=
  rows.insertionSort (fun a b => b.id ≤ a.id)

/-- The text `rows.Scan` stores into the string `CreatedAt` for the column
`created_at`: the column is declared `DATETIME`, so the driver hands the scan a
`time.Time` and `database/sql` writes it into a string in RFC 3339 form.  For the
text `YYYY-MM-DD HH:MM:SS` that `CURRENT_TIMESTAMP` stores (UTC, whole seconds; the
only text the program puts into the column) the blank after the date becomes `T`
and `Z` is appended. -/
def rfc3339 (stamp : String) : String :=
  String.mk (stamp.data.take 10 ++ 'T' :: stamp.data.drop 11) ++ "Z"

/-- The `rows.Scan` of line 205: the query of line 198 selects no `pipeline`, so
that field of the `Build` keeps its zero value; `created_at` arrives in RFC 3339
form. -/
def scanBuild (r : Row) : Build :=
  { ID := r.id, Repo := r.repo, Branch := r.branch, Commit := r.commit_hash,
    Pipeline := "", Status := r.status, CreatedAt := rfc3339 r.created_at,
    StartedAt := r.started_at, FinishedAt := r.finished_at }

/-- The query of line 198 with the scan loop of lines 200-207:
`... FROM builds ORDER BY id DESC LIMIT 15`. -/
def latest15 (st : Store) : List Build :=
  ((orderByIdDesc st.rows).take 15).map scanBuild

/-! ## Daemon side: `saveBuild`, `triggerBuild`, `handleCli` -/

/-- Outcome of reading and decoding `repos.json` (lines 251-263). -/
inductive ReposJson where
  /-- Reading the file with `os.ReadFile` failed. -/
  | unreadable
  /-- The file is no JSON object of strings (`json.Unmarshal` failed). -/
  | malformed
  /-- The decoded `map[string]string`, in the order the `range` of line 265
  visits it. -/
  | mapping (repos : List (String × String))
  deriving DecidableEq, Repr

/-- What the surroundings decide while one command is handled. -/
structure Env where
  /-- The path `filepath.Join(home, ".config", "boring-ci", "repos.json")`,
  `none` when `os.UserHomeDir` fails. -/
  reposPath : Option String
  reposJson : ReposJson
  /-- The value of `CURRENT_TIMESTAMP`. -/
  now : String
  /-- An error the database engine raises on the insert. -/
  dbFault : Option String
  /-- Whether a write on the connection succeeds (the peer is still there). -/
  writeOk : Bool
  deriving DecidableEq, Repr

/-- The daemon process as the handler sees it: the database and what was printed
on standard output. -/
structure Daemon where
  store : Store
  stdout : String
  deriving DecidableEq, Repr

/-- Function `saveBuild` (lines 278-292): the daemon afterwards and the returned
error (`none` for `nil`). -/
def saveBuild (env : Env) (d : Daemon) (repo branch commit pipeline : String) :
    Daemon × Option String :=
  match execInsert env.dbFault env.now d.store repo branch commit pipeline with
  | .error e => (d, some ("database error: " ++ e))
  | .ok (st, id) =>
    ({ store := st,
       stdout := d.stdout ++ "Recorded build #" ++ toString id ++ " in database\n" },
     none)

/-- The loop of lines 265-273 over the entries of the map: at the first name equal
to `repo` it prints, calls `saveBuild`, drops what `saveBuild` returned (line 269)
and returns `nil`; line 275 when no name matches. -/
def rangeRepos (env : Env) (d : Daemon) (repo branch commit pipeline : String) :
    List (String × String) → Daemon × Option String
  | [] => (d, some "Could not find that repo in repos.json")
  | (name, _) :: rest =>
    if name = repo then
      let d1 : Daemon :=
        { d with stdout := d.stdout ++ "New build scheduled: repo " ++ repo ++ " ("
            ++ pipeline ++ " pipeline), branch " ++ branch ++ ", commit: " ++ commit }
      ((saveBuild env d1 repo branch commit pipeline).1, none)
    else rangeRepos env d repo branch commit pipeline rest

/-- Function `triggerBuild` (lines 242-276): the daemon afterwards and the returned
error (`none` for `nil`). -/
def triggerBuild (env : Env) (d : Daemon) (repo branch commit pipeline : String) :
    Daemon × Option String :=
  match env.reposPath with
  | none => (d, some "Can\x27t find home dir")
  | some path =>
    match env.reposJson with
    | .unreadable => (d, some ("Can\x27t find file " ++ path))
    | .malformed =>
      (d, some ("Error in parsing repos.json, make sure it\x27s valid JSON and "
        ++ "follows the \x7b string: string, ... \x7d format."))
    | .mapping repos => rangeRepos env d repo branch commit pipeline repos

/-- The bytes of a Go string: its UTF-8 encoding. -/
def bytesOf (s : String) : List UInt8 :=
  (s.data.map String.utf8EncodeChar).flatten

/-- Size of the buffer of `bufio.NewWriter`. -/
def bufSize : Nat := 4096

/-- One connection as the handler holds it: the `bufio.Writer` of line 167 (its
pending bytes and its sticky error) and the bytes that reached the socket. -/
structure Conn where
  /-- Bytes written to the socket, in order. -/
  sent : List UInt8
  /-- Bytes the `bufio.Writer` holds and has not written yet. -/
  buf : List UInt8
  /-- The writer met a write error; it then ignores every later call. -/
  err : Bool
  deriving DecidableEq, Repr

/-- A fresh connection (lines 166-167). -/
def Conn.fresh : Conn := { sent := [], buf := [], err := false }

/-- Method `bufio.Writer.WriteString`: the bytes are appended to the buffer; when
they do not fit, full buffers are written to the socket until the rest fits.  A
failed write sets the sticky error and the rest of the string is dropped. -/
def Conn.WriteString (writeOk : Bool) (c : Conn) (s : String) : Conn :=
  if c.err then c
  else
    let all := c.buf ++ bytesOf s
    if all.length ≤ bufSize then { c with buf := all }
    else if writeOk then
      let n := (all.length - 1) / bufSize * bufSize
      { sent := c.sent ++ all.take n, buf := all.drop n, err := false }
    else { c with buf := all.take bufSize, err := true }

/-- Method `bufio.Writer.Flush`: the pending bytes are written to the socket. -/
def Conn.Flush (writeOk : Bool) (c : Conn) : Conn :=
  if c.err then c
  else if c.buf = [] then c
  else if writeOk then { c with sent := c.sent ++ c.buf, buf := [] }
  else { c with err := true }

/-- The predicate `unicode.IsSpace`. -/
def isSpace (c : Char) : Bool :=
  c = '\t' || c = '\n' || c = '\x0b' || c = '\x0c' || c = '\r' || c = ' '
    || c.val = 0x85 || c.val = 0xA0 || c.val = 0x1680
    || (0x2000 ≤ c.val && c.val ≤ 0x200A)
    || c.val = 0x2028 || c.val = 0x2029 || c.val = 0x202F || c.val = 0x205F
    || c.val = 0x3000

/-- Worker of `Fields`: `cur` is the field being read, reversed. -/
def fieldsAux (cur : List Char) : List Char → List (List Char)
  | [] => if cur = [] then [] else [cur.reverse]
  | c :: cs =>
    if isSpace c then
      if cur = [] then fieldsAux [] cs else cur.reverse :: fieldsAux [] cs
    else fieldsAux (c :: cur) cs

/-- Function `strings.Fields`: the maximal runs of non-space characters. -/
def Fields (s : String) : List String :=
  (fieldsAux [] s.data).map String.mk

/-- The handler of one connection together with the daemon it runs in. -/
structure Handler where
  daemon : Daemon
  conn : Conn
  deriving DecidableEq, Repr

/-- Result of handling one command line. -/
inductive LineResult where
  /-- Back at `scanner.Scan()` for the next line. -/
  | next (h : Handler)
  /-- A run-time panic; nothing recovers it, so the daemon process dies. -/
  | panicked (h : Handler) (msg : String)
  /-- The handler entered the loop of lines 197-216, which it never leaves. -/
  | watching (h : Handler)
  deriving DecidableEq, Repr

/-- The handler a line left behind. -/
def LineResult.handler : LineResult → Handler
  | .next h => h
  | .panicked h _ => h
  | .watching h => h

/-- The `case "trigger"` of lines 182-193; `parts[1]` to `parts[4]` are read in
that order before the call. -/
def handleTrigger (env : Env) (h : Handler) (parts : List String) : LineResult :=
  match sliceIndex parts 1 with
  | .error msg => .panicked h msg
  | .ok repo =>
  match sliceIndex parts 2 with
  | .error msg => .panicked h msg
  | .ok branch =>
  match sliceIndex parts 3 with
  | .error msg => .panicked h msg
  | .ok commit =>
  match sliceIndex parts 4 with
  | .error msg => .panicked h msg
  | .ok pipeline =>
    let r := triggerBuild env h.daemon repo branch commit pipeline
    let reply :=
      match r.2 with
      | some e => "Error: " ++ e ++ "\n"
      | none => "Success!\n"
    .next { daemon := r.1,
            conn := (h.conn.WriteString env.writeOk reply).Flush env.writeOk }

/-- The body of the scan loop of `handleCli` (lines 170-219) for one line
`command`. -/
def handleLine (env : Env) (h : Handler) (command : String) : LineResult :=
  if command = "PING" then
    .next { h with conn := (h.conn.WriteString env.writeOk "PONG\n").Flush env.writeOk }
  else
    let parts := Fields command
    match sliceIndex parts 0 with
    | .error msg => .panicked h msg
    | .ok first =>
      if first = "trigger" then handleTrigger env h parts
      else if first = "watch" then .watching h
      else .next { h with conn := h.conn.WriteString env.writeOk "Unknown command\n" }

/-- How a connection ended. -/
inductive ConnResult where
  /-- The scanner met the end of the input: `handleCli` returns and the deferred
  `conn.Close()` runs; bytes still in the `bufio.Writer` are never written. -/
  | closed (h : Handler)
  | panicked (h : Handler) (msg : String)
  | watching (h : Handler)
  deriving DecidableEq, Repr

/-- Function `handleCli` (lines 163-221) over the lines the scanner yields, each
with the surroundings at the time it is handled. -/
def handleCli (h : Handler) : List (Env × String) → ConnResult
  | [] => .closed h
  | (env, command) :: rest =>
    match handleLine env h command with
    | .next h' => handleCli h' rest
    | .panicked h' msg => .panicked h' msg
    | .watching h' => .watching h'

/-! ## Watch loop (`main.go` lines 194-216) -/

/-- What the surroundings decide during one pass of the watch loop. -/
structure Tick where
  /-- The table when it is polled (other connections insert meanwhile). -/
  store : Store
  /-- An error of `db.Query`; line 198 drops it and `rows` is then nil. -/
  queryErr : Option String
  /-- The error a write on the connection returns in this pass (the peer closed),
  `none` when a write succeeds. -/
  writeErr : Option String
  deriving DecidableEq, Repr

/-- What the watch loop has done so far, with the state of the `json.Encoder`
of line 195. -/
structure Watch where
  /-- Number of polls of the store (line 198). -/
  polls : Nat
  /-- The snapshots the peer received, oldest first. -/
  delivered : List (List Build)
  /-- The error the encoder keeps: it is created once, before the loop, and after
  a failed write every later `Encode` returns that error without writing. -/
  encErr : Option String
  /-- What the daemon printed (line 212). -/
  stdout : String
  /-- Number of `time.Sleep(2 * time.Second)` calls made (line 215). -/
  sleeps : Nat
  deriving DecidableEq, Repr

/-- The loop has not started: the encoder of line 195 is fresh. -/
def Watch.start : Watch :=
  { polls := 0, delivered := [], encErr := none, stdout := "", sleeps := 0 }

/-- The watch loop after a finite number of passes. -/
inductive WatchResult where
  /-- Still inside `for { ... }`, about to poll again. -/
  | looping (w : Watch)
  /-- A nil `rows` was dereferenced at line 202. -/
  | panicked (w : Watch) (msg : String)
  deriving DecidableEq, Repr

/-- The call `encoder.Encode(list)` of line 211 with the `if` around it: an
encoder that failed before returns its kept error at once; otherwise the snapshot
is written to the connection, and a failed write is kept.  Either error is printed
by line 212 and nothing else is done about it. -/
def encodeSnapshot (w : Watch) (writeErr : Option String) (list : List Build) : Watch :=
  match w.encErr with
  | some e => { w with stdout := w.stdout ++ "Error from SQL: " ++ e }
  | none =>
    match writeErr with
    | none => { w with delivered := w.delivered ++ [list] }
    | some e => { w with encErr := some e, stdout := w.stdout ++ "Error from SQL: " ++ e }

/-- One pass of the loop body (lines 198-215): poll, encode, sleep. -/
def watchPass (w : Watch) (t : Tick) : WatchResult :=
  let w1 := { w with polls := w.polls + 1 }
  match t.queryErr with
  | some _ => .panicked w1 "invalid memory address or nil pointer dereference"
  | none =>
    let w2 := encodeSnapshot w1 t.writeErr (latest15 t.store)
    .looping { w2 with sleeps := w2.sleeps + 1 }

/-- The loop of lines 197-216 over the passes the surroundings let it make. The
body has no `break` and no `return`. -/
def watchLoop (w : Watch) : List Tick → WatchResult
  | [] => .looping w
  | t :: rest =>
    match watchPass w t with
    | .looping w' => watchLoop w' rest
    | .panicked w' msg => .panicked w' msg

/-! ## `float64`, `time.Duration` and `Build.Elapsed` (`main.go` lines 367-390) -/

/-- Worker of `bitLen`, by halving. -/
def bitLenAux : Nat → Nat → Nat
  | 0, _ => 0
  | fuel + 1, n => if n = 0 then 0 else bitLenAux fuel (n / 2) + 1

/-- Number of binary digits of `n`: the least `k` with `n < 2 ^ k`. -/
def bitLen (n : Nat) : Nat := bitLenAux n n

/-- The integer nearest to `n / d`, the even one of two equally near. -/
def roundHalfEven (n d : Nat) : Nat :=
  if 2 * (n % d) < d then n / d
  else if d < 2 * (n % d) then n / d + 1
  else if n / d % 2 = 0 then n / d
  else n / d + 1

/-- A finite `float64`: the number `m * 2 ^ e`. -/
structure F64 where
  m : Int
  e : Int
  deriving DecidableEq, Repr

/-- Round the positive number `n / d * 2 ^ e` to 53 significant bits, to nearest
and ties to even (the rounding of every IEEE 754 operation): the significand
and its exponent.  With `s = 53 - (bitLen n - bitLen d)` the quotient
`n * 2 ^ s / d` lies between `2 ^ 52` and `2 ^ 54`.  Exponent limits (subnormal
numbers, overflow) are not modelled; the magnitudes met here lie between
`2 ^ (-36)` and `2 ^ 34`. -/
def roundPos (n d : Nat) (e : Int) : Nat × Int :=
  let s : Int := 53 - ((bitLen n : Int) - (bitLen d : Int))
  let N := n * 2 ^ s.toNat
  let D := d * 2 ^ (-s).toNat
  if N / D < 2 ^ 53 then (roundHalfEven N D, e - s)
  else (roundHalfEven N (2 * D), e - s + 1)

/-- The `float64` nearest to `± n / d * 2 ^ e`. -/
def F64.round (neg : Bool) (n d : Nat) (e : Int) : F64 :=
  if n = 0 then { m := 0, e := 0 }
  else
    let r := roundPos n d e
    { m := if neg then -(r.1 : Int) else (r.1 : Int), e := r.2 }

/-- Conversion `float64(i)` of an integer. -/
def F64.ofInt (i : Int) : F64 := F64.round (decide (i < 0)) i.natAbs 1 0

/-- Quotient `x / y` of two `float64` (`y` not zero). -/
def F64.div (x y : F64) : F64 :=
  F64.round (decide (x.m < 0) != decide (y.m < 0)) x.m.natAbs y.m.natAbs (x.e - y.e)

/-- Sum `x + y` of two `float64`. -/
def F64.add (x y : F64) : F64 :=
  let e := min x.e y.e
  let sum := x.m * 2 ^ (x.e - e).toNat + y.m * 2 ^ (y.e - e).toNat
  F64.round (decide (sum < 0)) sum.natAbs 1 e

/-- Conversion `int(x)`: the fraction is discarded (truncation toward zero). -/
def F64.toInt (x : F64) : Int :=
  if 0 ≤ x.e then x.m * 2 ^ x.e.toNat else x.m.tdiv (2 ^ (-x.e).toNat)

/-- The negation `-x` of a `float64`. -/
def F64.neg (x : F64) : F64 := { m := -x.m, e := x.e }

/-- The rational number a `float64` stands for. -/
def F64.val (x : F64) : ℚ := x.m * (2 : ℚ) ^ x.e

/-- Constant `time.Second`, in nanoseconds. -/
def Second : Duration := 1000000000

/-- Constant `time.Minute`, in nanoseconds. -/
def Minute : Duration := 60000000000

/-- Method `time.Time.Sub`: the difference `t - u`, or the largest (smallest)
`Duration` when the difference does not fit an `int64`. -/
def timeSub (t u : Time) : Duration := clampInt64 (t - u)

/-- Method `time.Duration.Seconds`:
`sec := d / Second; nsec := d % Second; float64(sec) + float64(nsec)/1e9`. -/
def Seconds (d : Duration) : F64 :=
  F64.add (F64.ofInt (d.tdiv Second))
    (F64.div (F64.ofInt (d.tmod Second)) (F64.ofInt 1000000000))

/-- Method `time.Duration.Minutes`:
`min := d / Minute; nsec := d % Minute; float64(min) + float64(nsec)/(60*1e9)`. -/
def Minutes (d : Duration) : F64 :=
  F64.add (F64.ofInt (d.tdiv Minute))
    (F64.div (F64.ofInt (d.tmod Minute)) (F64.ofInt 60000000000))

/-- The formatting of lines 385-389 for a duration. -/
def formatElapsed (duration : Duration) : String :=
  if duration < Minute then
    toString (Seconds duration).toInt ++ "s"
  else
    toString (Minutes duration).toInt ++ "m"
      ++ toString ((Seconds duration).toInt.tmod 60) ++ "s"

/-- Method `Build.Elapsed` (lines 367-390); `now` is the reading of `time.Now()`. -/
def Build.Elapsed (b : Build) (now : Time) : String :=
  match b.StartedAt with
  | none => "0s"
  | some started =>
    let finish :=
      match b.FinishedAt with
      | some finished => finished
      | none => now
    formatElapsed (timeSub finish started)

/-- The rule of the specification for a duration `d`: `<N>s` with `N` the whole
seconds of `d` when `d` is under 60 seconds, otherwise `<M>m<S>s` with `M` the
whole minutes of `d` and `S` the whole seconds of `d` modulo 60. -/
def ruleFormat (d : Duration) : String :=
  if d < 60 * Second then toString (d.tdiv Second) ++ "s"
  else toString (d.tdiv Minute) ++ "m" ++ toString (d.tdiv Second % 60) ++ "s"

/-- The `Elapsed()` rule of the specification: "0s" when `started_at` is unset;
otherwise the rule for `d = (finished_at or now) - started_at`. -/
def elapsedRule (startedAt finishedAt : Option Time) (now : Time) : String :=
  match startedAt with
  | none => "0s"
  | some started => ruleFormat (timeSub (finishedAt.getD now) started)

/-! ## Example values used by the concrete statements -/

/-- A build as the watch stream delivers it for a freshly triggered row. -/
def sampleBuild : Build :=
  { ID := 1, Repo := "web", Branch := "main", Commit := "abc123", Pipeline := "",
    Status := "pending", CreatedAt := "2026-01-01T00:00:00Z",
    StartedAt := none, FinishedAt := none }

/-- The table after the first trigger of `web`. -/
def sampleStore : Store :=
  { rows := [{ id := 1, repo := "web", branch := "main", commit_hash := "abc123",
               pipeline := "build", status := "pending",
               created_at := "2026-01-01 00:00:00", started_at := none,
               finished_at := none }],
    seq := 1 }

/-- Surroundings in which `repos.json` maps the one name `web`, the database
works and the peer reads. -/
def sampleEnv : Env :=
  { reposPath := some "/home/ci/.config/boring-ci/repos.json",
    reposJson := .mapping [("web", "git@example.org:web.git")],
    now := "2026-01-01 00:00:00", dbFault := none, writeOk := true }

/-- A daemon on a fresh database with a fresh connection. -/
def sampleHandler : Handler :=
  { daemon := { store := Store.empty, stdout := "" }, conn := Conn.fresh }

/-! ## Theorems: dashboard client -/

theorem wrapInt64_of_mem (x : Int) (h1 : minInt64 ≤ x) (h2 : x ≤ maxInt64) :
    wrapInt64 x = x := by
  unfold wrapInt64
  unfold minInt64 at h1
  unfold maxInt64 at h2
  omega

theorem inputStep_state (s : DashboardState) (key : Char)
    (hq : key ≠ 'q') (hc : key ≠ '\x03') :
    (inputStep s key).state? = some (applyKey s key) := by
  unfold inputStep renderStep
  rw [if_neg (by simp [hq, hc])]
  cases render (applyKey s key) <;> rfl

theorem applyKey_eq_table (s : DashboardState) (key : Char) (hq : key ≠ 'q')
    (hs : s.CursorsInside) : applyKey s key = transitionTable s key := by
  obtain ⟨⟨a1, a2⟩, b1, b2⟩ := hs
  have e1 : wrapInt64 (s.SelectedIndex + 1) = s.SelectedIndex + 1 :=
    wrapInt64_of_mem _ (by omega) (by omega)
  have e2 : wrapInt64 (s.SelectedIndex - 1) = s.SelectedIndex - 1 :=
    wrapInt64_of_mem _ (by omega) (by omega)
  have e3 : wrapInt64 (s.LogScrollIdx + 1) = s.LogScrollIdx + 1 :=
    wrapInt64_of_mem _ (by omega) (by omega)
  have e4 : wrapInt64 (s.LogScrollIdx - 1) = s.LogScrollIdx - 1 :=
    wrapInt64_of_mem _ (by omega) (by omega)
  unfold applyKey transitionTable
  rw [e1, e2, e3, e4]
  by_cases hj : key = 'j'
  · subst hj; simp
  · by_cases hk : key = 'k'
    · subst hk; simp
    · by_cases he : key = '\x1b'
      · subst he; simp
      · simp [hq, hj, hk, he]

theorem applyKey_j_k (s : DashboardState) (hs : s.CursorsInside) :
    applyKey (applyKey s 'j') 'k' = s := by
  obtain ⟨⟨a1, a2⟩, b1, b2⟩ := hs
  cases s with
  | mk builds logs sel view scroll =>
    simp only at a1 a2 b1 b2
    have e1 : wrapInt64 (sel + 1) = sel + 1 := wrapInt64_of_mem _ (by omega) (by omega)
    have e2 : wrapInt64 sel = sel := wrapInt64_of_mem _ (by omega) (by omega)
    have e3 : wrapInt64 (scroll + 1) = scroll + 1 :=
      wrapInt64_of_mem _ (by omega) (by omega)
    have e4 : wrapInt64 scroll = scroll := wrapInt64_of_mem _ (by omega) (by omega)
    by_cases hv : view = ViewDashboard
    · subst hv
      simp [applyKey, e1, e2]
    · by_cases hl : view = ViewLogs
      · subst hl
        simp [applyKey, e3, e4, ViewLogs, ViewDashboard]
      · simp [applyKey, hv, hl]

theorem render_ok (s : DashboardState)
    (h : s.ActiveView = ViewDashboard ∨ s.Builds = [] ∨ 0 ≤ s.SelectedIndex) :
    ∃ frame, render s = .ok frame := by
  unfold render
  by_cases hv : s.ActiveView = ViewDashboard
  · exact ⟨_, if_pos hv⟩
  · rw [if_neg hv]
    unfold renderLogView
    by_cases hg : s.Builds.length = 0 ∨ s.SelectedIndex ≥ s.Builds.length
    · exact ⟨_, if_pos hg⟩
    · rw [if_neg hg]
      have hne : s.Builds ≠ [] := fun hnil => hg (Or.inl (by rw [hnil]; rfl))
      have h0 : 0 ≤ s.SelectedIndex := by
        rcases h with h | h | h
        · exact absurd h hv
        · exact absurd h hne
        · exact h
      have hlt : s.SelectedIndex.toNat < s.Builds.length := by
        have : ¬ s.SelectedIndex ≥ s.Builds.length := fun hc => hg (Or.inr hc)
        omega
      unfold sliceIndex
      rw [if_neg (not_lt.mpr h0), List.get?_eq_get hlt]
      exact ⟨_, rfl⟩

/-- C8: for every dashboard state whose two cursors are strictly inside the range
of a Go `int`, and every key other than `q` and Ctrl-C, the state one pass of the
input loop leaves behind is the one the transition table gives (`j`/`k` move the
cursor of the active view by one without clamping, Enter opens the log view, Esc
closes it, any other key changes nothing); the build list and the log list are
unchanged, the cursors change only on `j`/`k` and the view only on Enter/Esc; `j`
followed by `k` restores the original state; and the render that ends the pass
completes whenever the new state shows the dashboard, has no builds or has a
non-negative `SelectedIndex`. -/
theorem inputStep_follows_transitionTable (s : DashboardState) (key : Char)
    (hq : key ≠ 'q') (hc : key ≠ '\x03') (hs : s.CursorsInside) :
    (inputStep s key).state? = some (transitionTable s key)
    ∧ (transitionTable s key).Builds = s.Builds
    ∧ (transitionTable s key).Logs = s.Logs
    ∧ (key ≠ 'j' → key ≠ 'k' →
        (transitionTable s key).SelectedIndex = s.SelectedIndex
        ∧ (transitionTable s key).LogScrollIdx = s.LogScrollIdx)
    ∧ (key ≠ '\r' → key ≠ '\x1b' → (transitionTable s key).ActiveView = s.ActiveView)
    ∧ ((inputStep s 'j').state?.bind fun t => (inputStep t 'k').state?) = some s
    ∧ ((transitionTable s key).ActiveView = ViewDashboard
        ∨ (transitionTable s key).Builds = []
        ∨ 0 ≤ (transitionTable s key).SelectedIndex →
        ∃ frame, inputStep s key = .rendered (transitionTable s key) frame) := by
  refine ⟨?_, ?_, ?_, ?_, ?_, ?_, ?_⟩
  · rw [inputStep_state s key hq hc, applyKey_eq_table s key hq hs]
  · unfold transitionTable; split_ifs <;> rfl
  · unfold transitionTable; split_ifs <;> rfl
  · intro hj hk
    unfold transitionTable
    simp only [hj, hk, if_false]
    split_ifs <;> exact ⟨rfl, rfl⟩
  · intro he hx
    unfold transitionTable
    simp only [he, hx, if_false]
    split_ifs <;> rfl
  · rw [inputStep_state s 'j' (by decide) (by decide)]
    simp only [Option.bind, Option.some_bind]
    rw [inputStep_state _ 'k' (by decide) (by decide), applyKey_j_k s hs]
  · intro hr
    obtain ⟨frame, hf⟩ := render_ok _ hr
    refine ⟨frame, ?_⟩
    unfold inputStep renderStep
    rw [if_neg (by simp [hq, hc]), applyKey_eq_table s key hq hs, hf]

/-- C8, at a concrete input: the fresh dashboard state and the key `j`. -/
theorem inputStep_follows_transitionTable_witness :
    (inputStep DashboardState.zero 'j').state?
        = some (transitionTable DashboardState.zero 'j')
    ∧ (transitionTable DashboardState.zero 'j').SelectedIndex = 1 :=
  ⟨(inputStep_follows_transitionTable DashboardState.zero 'j' (by decide) (by decide)
      (by decide)).1, by decide⟩

/-- C7: the key `q` ends the input loop in every view.  From the fresh dashboard
state Enter then `q` exits the client, and from no state does Enter then `q`
leave the client running. -/
theorem enter_then_q_exits :
    runEvents DashboardState.zero [.key '\r', .key 'q'] = Client.exited
    ∧ (∀ s : DashboardState, inputStep s 'q' = StepResult.exited)
    ∧ ∀ s t : DashboardState, runEvents s [.key '\r', .key 'q'] ≠ Client.running t := by
  refine ⟨by decide, fun s => by simp [inputStep], ?_⟩
  intro s t
  simp only [runEvents, clientStep]
  cases inputStep s '\r' with
  | exited => simp
  | rendered s' f => simp [inputStep]
  | panicked s' m => simp

/-- C10: with one build in the list, the key `k` then Enter makes `renderLogView`
index `Builds[-1]`: the guard of line 426 lets a negative `SelectedIndex` through
and the render panics. -/
theorem renderLogView_negative_index_panics :
    renderLogView { Builds := [sampleBuild], Logs := [], SelectedIndex := -1,
                    ActiveView := ViewLogs, LogScrollIdx := 0 }
      = Except.error "index out of range [-1]"
    ∧ runEvents DashboardState.zero [.snapshot [sampleBuild], .key 'k', .key '\r']
      = Client.crashed
          { Builds := [sampleBuild], Logs := [], SelectedIndex := -1,
            ActiveView := ViewLogs, LogScrollIdx := 0 }
          "index out of range [-1]" := by
  constructor <;> decide

/-! ## Theorems: build store and command handler -/

theorem le_foldl_max (rows : List Row) (m : Int) :
    m ≤ rows.foldl (fun m r => max m r.id) m
    ∧ ∀ r ∈ rows, r.id ≤ rows.foldl (fun m r => max m r.id) m := by
  induction rows generalizing m with
  | nil => simp
  | cons x xs ih =>
    simp only [List.foldl_cons, List.mem_cons, forall_eq_or_imp]
    obtain ⟨h1, h2⟩ := ih (max m x.id)
    exact ⟨le_trans (le_max_left _ _) h1, le_trans (le_max_right _ _) h1, h2⟩

theorem le_maxId (rows : List Row) (r : Row) (h : r ∈ rows) : r.id ≤ maxId rows :=
  (le_foldl_max rows 0).2 r h

theorem maxId_append_singleton (rows : List Row) (r : Row) :
    maxId (rows ++ [r]) = max (maxId rows) r.id := by
  simp [maxId, List.foldl_append]

theorem noGap_empty : Store.empty.NoGap := by decide

theorem execInsert_ok (now : String) (st : Store) (repo branch commit pipeline : String)
    (hgap : st.NoGap) (hfull : maxId st.rows < maxInt64) :
    execInsert none now st repo branch commit pipeline
      = .ok ({ rows := st.rows ++
                [{ id := maxId st.rows + 1, repo := repo, branch := branch,
                   commit_hash := commit, pipeline := pipeline, status := "pending",
                   created_at := now, started_at := none, finished_at := none }],
               seq := maxId st.rows + 1 }, maxId st.rows + 1) := by
  unfold Store.NoGap at hgap
  have hmax : max st.seq (maxId st.rows) = maxId st.rows := max_eq_right hgap
  simp only [execInsert, hmax]
  rw [if_neg (by omega)]

theorem rangeRepos_absent (env : Env) (d : Daemon) (repo branch commit pipeline : String)
    (repos : List (String × String)) (h : ∀ p ∈ repos, p.1 ≠ repo) :
    rangeRepos env d repo branch commit pipeline repos
      = (d, some "Could not find that repo in repos.json") := by
  induction repos with
  | nil => rfl
  | cons p ps ih =>
    obtain ⟨name, url⟩ := p
    have hne : name ≠ repo := h (name, url) (List.mem_cons_self _ _)
    simp only [rangeRepos, if_neg hne]
    exact ih (fun q hq => h q (List.mem_cons_of_mem _ hq))

theorem rangeRepos_present (env : Env) (d : Daemon) (repo branch commit pipeline : String)
    (repos : List (String × String)) (h : ∃ p ∈ repos, p.1 = repo) :
    rangeRepos env d repo branch commit pipeline repos
      = ((saveBuild env
            { d with stdout := d.stdout ++ "New build scheduled: repo " ++ repo ++ " ("
                ++ pipeline ++ " pipeline), branch " ++ branch ++ ", commit: " ++ commit }
            repo branch commit pipeline).1, none) := by
  induction repos with
  | nil => simp at h
  | cons p ps ih =>
    obtain ⟨name, url⟩ := p
    by_cases hn : name = repo
    · simp only [rangeRepos, if_pos hn]
    · simp only [rangeRepos, if_neg hn]
      apply ih
      obtain ⟨q, hq, hq'⟩ := h
      rcases List.mem_cons.mp hq with rfl | hq
      · exact absurd hq' hn
      · exact ⟨q, hq, hq'⟩

theorem writeString_flush (c : Conn) (s : String) (h : c.err = false) :
    (c.WriteString true s).Flush true
      = { sent := c.sent ++ c.buf ++ bytesOf s, buf := [], err := false } := by
  obtain ⟨sent, buf, err⟩ := c
  simp only at h
  subst h
  simp only [Conn.WriteString, Conn.Flush, Bool.false_eq_true, if_false, if_true]
  by_cases hfit : (buf ++ bytesOf s).length ≤ bufSize
  · simp only [if_pos hfit]
    by_cases he : buf ++ bytesOf s = []
    · simp only [Bool.false_eq_true, if_false, if_pos he]
      obtain ⟨h1, h2⟩ := List.append_eq_nil.mp he
      simp [h1, h2]
    · simp only [Bool.false_eq_true, if_false, if_neg he, List.append_assoc]
  · simp only [if_neg hfit, Bool.false_eq_true, if_false]
    by_cases he : List.drop (((buf ++ bytesOf s).length - 1) / bufSize * bufSize)
        (buf ++ bytesOf s) = []
    · simp only [if_pos he]
      have := List.take_append_drop (((buf ++ bytesOf s).length - 1) / bufSize * bufSize)
        (buf ++ bytesOf s)
      rw [he, List.append_nil] at this
      rw [Conn.mk.injEq]
      exact ⟨by rw [this, List.append_assoc], he, rfl⟩
    · simp only [if_neg he, List.append_assoc, List.take_append_drop]

theorem handleLine_trigger (env : Env) (h : Handler) (command : String)
    (repo branch commit pipeline : String) (rest : List String)
    (hf : Fields command = "trigger" :: repo :: branch :: commit :: pipeline :: rest) :
    handleLine env h command
      = .next
          { daemon := (triggerBuild env h.daemon repo branch commit pipeline).1,
            conn := (h.conn.WriteString env.writeOk
              (match (triggerBuild env h.daemon repo branch commit pipeline).2 with
                | some e => "Error: " ++ e ++ "\n"
                | none => "Success!\n")).Flush env.writeOk } := by
  have hping : command ≠ "PING" := by
    intro hc
    have hp : Fields "PING" = ["PING"] := by decide
    rw [hc, hp] at hf
    have h0 := (List.cons.inj hf).1
    revert h0
    decide
  simp [handleLine, hping, hf, sliceIndex, handleTrigger]

/-- C2: when `repos.json` decodes to a mapping that has no key equal to the repo
name of a trigger request, `triggerBuild` leaves the daemon (and with it the build
store) unchanged and returns the error "Could not find that repo in repos.json";
the handler leaves the store unchanged, writes and flushes the line
"Error: Could not find that repo in repos.json\n", and on a working connection
exactly the pending bytes followed by that line reach the peer. -/
theorem trigger_unknown_repo_no_insert (env : Env) (h : Handler) (command : String)
    (repo branch commit pipeline path : String) (rest : List String)
    (repos : List (String × String))
    (hf : Fields command = "trigger" :: repo :: branch :: commit :: pipeline :: rest)
    (hpath : env.reposPath = some path) (hjson : env.reposJson = .mapping repos)
    (habsent : ∀ p ∈ repos, p.1 ≠ repo) :
    triggerBuild env h.daemon repo branch commit pipeline
      = (h.daemon, some "Could not find that repo in repos.json")
    ∧ handleLine env h command
      = .next { daemon := h.daemon,
                conn := (h.conn.WriteString env.writeOk
                  "Error: Could not find that repo in repos.json\n").Flush env.writeOk }
    ∧ (handleLine env h command).handler.daemon.store = h.daemon.store
    ∧ (env.writeOk = true → h.conn.err = false →
        (handleLine env h command).handler.conn
          = { sent := h.conn.sent ++ h.conn.buf
                ++ bytesOf "Error: Could not find that repo in repos.json\n",
              buf := [], err := false }) := by
  have ht : triggerBuild env h.daemon repo branch commit pipeline
      = (h.daemon, some "Could not find that repo in repos.json") := by
    simp only [triggerBuild, hpath, hjson]
    exact rangeRepos_absent env h.daemon repo branch commit pipeline repos habsent
  have hl := handleLine_trigger env h command repo branch commit pipeline rest hf
  rw [ht] at hl
  have hmsg : "Error: " ++ "Could not find that repo in repos.json" ++ "\n"
      = "Error: Could not find that repo in repos.json\n" := by decide
  simp only [hmsg] at hl
  refine ⟨ht, hl, ?_, ?_⟩
  · rw [hl]; rfl
  · intro hw he
    rw [hl, hw]
    exact writeString_flush h.conn _ he

/-- C2, at a concrete input: the repo `api` is no key of the sample mapping. -/
theorem trigger_unknown_repo_no_insert_witness :
    (handleLine sampleEnv sampleHandler "trigger api main abc123 build").handler.daemon.store
      = Store.empty
    ∧ (handleLine sampleEnv sampleHandler "trigger api main abc123 build").handler.conn.sent
      = bytesOf "Error: Could not find that repo in repos.json\n" := by
  have h := trigger_unknown_repo_no_insert sampleEnv sampleHandler
    "trigger api main abc123 build" "api" "main" "abc123" "build"
    "/home/ci/.config/boring-ci/repos.json" [] [("web", "git@example.org:web.git")]
    (by decide) rfl rfl (by decide)
  refine ⟨h.2.2.1, ?_⟩
  rw [h.2.2.2 rfl rfl]
  rfl

/-- C3: a trigger request whose repo name is a key of the decoded `repos.json`,
handled while the database accepts the write (no engine fault, ids not exhausted)
on a store from which no newest row was deleted, makes exactly one insert: the
table afterwards is the table before followed by one row that carries the given
repo, branch, commit and pipeline with status `pending`, `started_at` and
`finished_at` NULL and id = prior maximum id + 1 (greater than every earlier id);
and on a working connection the reply "Success!\n" is written and flushed. -/
theorem trigger_known_repo_inserts_one_row (env : Env) (h : Handler) (command : String)
    (repo branch commit pipeline path : String) (rest : List String)
    (repos : List (String × String))
    (hf : Fields command = "trigger" :: repo :: branch :: commit :: pipeline :: rest)
    (hpath : env.reposPath = some path) (hjson : env.reposJson = .mapping repos)
    (hkey : ∃ p ∈ repos, p.1 = repo)
    (hdb : env.dbFault = none) (hfull : maxId h.daemon.store.rows < maxInt64)
    (hgap : h.daemon.store.NoGap)
    (hw : env.writeOk = true) (he : h.conn.err = false) :
    ∃ h' : Handler, handleLine env h command = .next h'
      ∧ h'.daemon.store.rows = h.daemon.store.rows ++
          [{ id := maxId h.daemon.store.rows + 1, repo := repo, branch := branch,
             commit_hash := commit, pipeline := pipeline, status := "pending",
             created_at := env.now, started_at := none, finished_at := none }]
      ∧ h'.daemon.store.rows.length = h.daemon.store.rows.length + 1
      ∧ (∀ r ∈ h.daemon.store.rows, r.id < maxId h.daemon.store.rows + 1)
      ∧ h'.daemon.store.NoGap
      ∧ h'.conn = { sent := h.conn.sent ++ h.conn.buf ++ bytesOf "Success!\n",
                    buf := [], err := false } := by
  have hl := handleLine_trigger env h command repo branch commit pipeline rest hf
  have ht : triggerBuild env h.daemon repo branch commit pipeline
      = ((saveBuild env
            { h.daemon with stdout := h.daemon.stdout ++ "New build scheduled: repo "
                ++ repo ++ " (" ++ pipeline ++ " pipeline), branch " ++ branch
                ++ ", commit: " ++ commit }
            repo branch commit pipeline).1, none) := by
    simp only [triggerBuild, hpath, hjson]
    exact rangeRepos_present env h.daemon repo branch commit pipeline repos hkey
  rw [ht] at hl
  simp only [saveBuild, hdb, execInsert_ok env.now h.daemon.store repo branch commit
    pipeline hgap hfull, hw] at hl
  refine ⟨_, hl, rfl, by simp, ?_, ?_, writeString_flush h.conn _ he⟩
  · intro r hr
    have := le_maxId _ r hr
    omega
  · simp only [Store.NoGap, maxId_append_singleton]
    exact le_max_right _ _

/-- C3, at a concrete input: the first trigger of the known repo `web` on a fresh
database stores one row with id 1 and is answered with "Success!\n". -/
theorem trigger_known_repo_inserts_one_row_witness :
    ∃ h' : Handler,
      handleLine sampleEnv sampleHandler "trigger web main abc123 build" = .next h'
      ∧ h'.daemon.store.rows =
          [{ id := 1, repo := "web", branch := "main", commit_hash := "abc123",
             pipeline := "build", status := "pending",
             created_at := "2026-01-01 00:00:00", started_at := none,
             finished_at := none }]
      ∧ h'.conn.sent = bytesOf "Success!\n" := by
  obtain ⟨h', h1, h2, -, -, -, h3⟩ := trigger_known_repo_inserts_one_row sampleEnv
    sampleHandler "trigger web main abc123 build" "web" "main" "abc123" "build"
    "/home/ci/.config/boring-ci/repos.json" [] [("web", "git@example.org:web.git")]
    (by decide) rfl rfl (by decide) rfl (by decide) (by decide) rfl rfl
  exact ⟨h', h1, h2, by rw [h3]; rfl⟩

/-- C4: with the repo known and the database failing the insert, `saveBuild`
returns the error "database error: disk I/O error", `triggerBuild` drops it and
returns nil, and the handler answers "Success!\n" although no row was stored. -/
theorem trigger_store_error_replies_success :
    saveBuild { sampleEnv with dbFault := some "disk I/O error" } sampleHandler.daemon
        "web" "main" "abc123" "build"
      = (sampleHandler.daemon, some "database error: disk I/O error")
    ∧ (triggerBuild { sampleEnv with dbFault := some "disk I/O error" }
        sampleHandler.daemon "web" "main" "abc123" "build").2 = none
    ∧ (handleLine { sampleEnv with dbFault := some "disk I/O error" } sampleHandler
        "trigger web main abc123 build").handler.conn.sent = bytesOf "Success!\n"
    ∧ (handleLine { sampleEnv with dbFault := some "disk I/O error" } sampleHandler
        "trigger web main abc123 build").handler.daemon.store = Store.empty := by
  refine ⟨by decide, by decide, by decide, by decide⟩

/-- C5: the empty line and a line of blanks make `parts[0]` an index out of range,
and a `trigger` line with two arguments makes `parts[3]` one: the handler panics,
whatever the surroundings and the state of the handler, and writes no error line. -/
theorem handleLine_malformed_panics (env : Env) (h : Handler) :
    handleLine env h "" = .panicked h "index out of range [0] with length 0"
    ∧ handleLine env h "   " = .panicked h "index out of range [0] with length 0"
    ∧ handleLine env h "trigger web main"
      = .panicked h "index out of range [3] with length 3" := by
  have h1 : Fields "" = [] := by decide
  have h2 : Fields "   " = [] := by decide
  have h3 : Fields "trigger web main" = ["trigger", "web", "main"] := by decide
  have e0 : sliceIndex ([] : List String) 0
      = .error "index out of range [0] with length 0" := by decide
  have e1 : sliceIndex ["trigger", "web", "main"] 0 = .ok "trigger" := by decide
  have e2 : sliceIndex ["trigger", "web", "main"] 1 = .ok "web" := by decide
  have e3 : sliceIndex ["trigger", "web", "main"] 2 = .ok "main" := by decide
  have e4 : sliceIndex ["trigger", "web", "main"] 3
      = .error "index out of range [3] with length 3" := by decide
  refine ⟨?_, ?_, ?_⟩
  · simp [handleLine, h1, e0]
  · simp [handleLine, h2, e0]
  · simp [handleLine, h3, e1, e2, e3, e4, handleTrigger]

/-- C6: on a fresh connection the line `deploy` puts "Unknown command\n" into the
buffer of the `bufio.Writer` and sends nothing; when the peer then closes, the
reply never was sent.  The `PING` branch flushes (its reply is sent at once), and a
later `PING` sends the held reply together with its own. -/
theorem unknown_command_not_flushed (env : Env) (d : Daemon) :
    handleLine env { daemon := d, conn := Conn.fresh } "deploy"
      = .next { daemon := d,
                conn := { sent := [], buf := bytesOf "Unknown command\n", err := false } }
    ∧ handleCli { daemon := d, conn := Conn.fresh } [(env, "deploy")]
      = .closed { daemon := d,
                  conn := { sent := [], buf := bytesOf "Unknown command\n", err := false } }
    ∧ (handleLine sampleEnv sampleHandler "PING").handler.conn.sent = bytesOf "PONG\n"
    ∧ handleCli sampleHandler [(sampleEnv, "deploy"), (sampleEnv, "PING")]
      = .closed { daemon := sampleHandler.daemon,
                  conn := { sent := bytesOf "Unknown command\nPONG\n", buf := [],
                            err := false } } := by
  have hf : Fields "deploy" = ["deploy"] := by decide
  have hb : (bytesOf "Unknown command\n").length ≤ bufSize := by decide
  have hl : handleLine env { daemon := d, conn := Conn.fresh } "deploy"
      = .next { daemon := d,
                conn := { sent := [], buf := bytesOf "Unknown command\n",
                          err := false } } := by
    simp [handleLine, hf, sliceIndex, Conn.WriteString, Conn.fresh, hb]
  refine ⟨hl, ?_, by decide, by decide⟩
  simp only [handleCli, hl]

/-! ## Theorems: watch loop -/

theorem latest15_length (st : Store) : (latest15 st).length ≤ 15 := by
  simp only [latest15, List.length_map, List.length_take]
  exact min_le_left _ _

theorem orderByIdDesc_sorted (rows : List Row) :
    List.Pairwise (fun a b : Row => b.id ≤ a.id) (orderByIdDesc rows) := by
  haveI : IsTotal Row (fun a b => b.id ≤ a.id) := ⟨fun a b => le_total b.id a.id⟩
  haveI : IsTrans Row (fun a b => b.id ≤ a.id) := ⟨fun a b c hab hbc => le_trans hbc hab⟩
  exact List.sorted_insertionSort (fun a b : Row => b.id ≤ a.id) rows

theorem latest15_sorted (st : Store) :
    List.Pairwise (fun a b : Build => b.ID ≤ a.ID) (latest15 st) := by
  have ht := List.Pairwise.sublist (List.take_sublist 15 (orderByIdDesc st.rows))
    (orderByIdDesc_sorted st.rows)
  simp only [latest15, List.pairwise_map, scanBuild]
  exact ht

theorem latest15_from_store (st : Store) (b : Build) (hb : b ∈ latest15 st) :
    ∃ r ∈ st.rows, b = scanBuild r := by
  simp only [latest15, List.mem_map] at hb
  obtain ⟨r, hr, rfl⟩ := hb
  have h1 : r ∈ orderByIdDesc st.rows := List.mem_of_mem_take hr
  exact ⟨r, (List.perm_insertionSort _ st.rows).mem_iff.mp h1, rfl⟩

/-- The snapshot holds the most recent builds: a row of the table is in the
snapshot, or its id is at most the id of every build in it. -/
theorem latest15_most_recent (st : Store) (r : Row) (hr : r ∈ st.rows) :
    scanBuild r ∈ latest15 st ∨ ∀ b ∈ latest15 st, r.id ≤ b.ID := by
  have h1 : r ∈ orderByIdDesc st.rows :=
    (List.perm_insertionSort _ st.rows).mem_iff.mpr hr
  rw [← List.take_append_drop 15 (orderByIdDesc st.rows), List.mem_append] at h1
  rcases h1 with h1 | h1
  · left
    exact List.mem_map_of_mem scanBuild h1
  · right
    intro b hb
    simp only [latest15, List.mem_map] at hb
    obtain ⟨a, ha, rfl⟩ := hb
    have hs := orderByIdDesc_sorted st.rows
    rw [← List.take_append_drop 15 (orderByIdDesc st.rows), List.pairwise_append] at hs
    exact hs.2.2 a ha r h1

theorem encodeSnapshot_polls (w : Watch) (writeErr : Option String) (list : List Build) :
    (encodeSnapshot w writeErr list).polls = w.polls
    ∧ (encodeSnapshot w writeErr list).sleeps = w.sleeps := by
  unfold encodeSnapshot
  cases w.encErr <;> cases writeErr <;> exact ⟨rfl, rfl⟩

theorem encodeSnapshot_failed (w : Watch) (writeErr : Option String) (list : List Build)
    (e : String) (he : w.encErr = some e) :
    (encodeSnapshot w writeErr list).encErr = some e
    ∧ (encodeSnapshot w writeErr list).delivered = w.delivered := by
  unfold encodeSnapshot
  rw [he]
  exact ⟨rfl, rfl⟩

theorem watchLoop_looping (w : Watch) (ticks : List Tick)
    (hq : ∀ t ∈ ticks, t.queryErr = none) :
    ∃ w' : Watch, watchLoop w ticks = .looping w'
      ∧ w'.polls = w.polls + ticks.length
      ∧ w'.sleeps = w.sleeps + ticks.length
      ∧ ∀ e, w.encErr = some e → w'.encErr = some e ∧ w'.delivered = w.delivered := by
  induction ticks generalizing w with
  | nil => exact ⟨w, rfl, by simp, by simp, fun e he => ⟨he, rfl⟩⟩
  | cons t ts ih =>
    have hqt : t.queryErr = none := hq t (List.mem_cons_self _ _)
    obtain ⟨w1, hw1⟩ : ∃ w1 : Watch,
        w1 = encodeSnapshot { w with polls := w.polls + 1 } t.writeErr (latest15 t.store) :=
      ⟨_, rfl⟩
    have hpass : watchPass w t = .looping { w1 with sleeps := w1.sleeps + 1 } := by
      simp only [watchPass, hqt, hw1]
    obtain ⟨p1, p2⟩ := encodeSnapshot_polls { w with polls := w.polls + 1 } t.writeErr
      (latest15 t.store)
    rw [← hw1] at p1 p2
    obtain ⟨w', h1, h2, h3, h4⟩ := ih { w1 with sleeps := w1.sleeps + 1 }
      (fun u hu => hq u (List.mem_cons_of_mem _ hu))
    refine ⟨w', ?_, ?_, ?_, ?_⟩
    · simp only [watchLoop, hpass]
      exact h1
    · simp only [h2, List.length_cons, p1]; omega
    · simp only [h3, List.length_cons, p2]; omega
    · intro e he
      obtain ⟨f1, f2⟩ := encodeSnapshot_failed { w with polls := w.polls + 1 } t.writeErr
        (latest15 t.store) e he
      rw [← hw1] at f1 f2
      obtain ⟨g1, g2⟩ := h4 e f1
      exact ⟨g1, g2.trans f2⟩

/-- C9: a watcher that receives one snapshot and then closes.  The write of the
second pass fails; the loop prints the error and goes on: it polls the store a
third and a fourth time, each time printing the error the encoder kept, and writes
nothing more.  In general, while `db.Query` works the loop is still looping after
any number of passes, whatever the writes do, and has polled once per pass; once a
write has failed no further snapshot is delivered. -/
theorem watchLoop_keeps_polling_after_failed_write :
    watchLoop Watch.start
      [{ store := sampleStore, queryErr := none, writeErr := none },
       { store := sampleStore, queryErr := none, writeErr := some "broken pipe" },
       { store := sampleStore, queryErr := none, writeErr := some "broken pipe" },
       { store := sampleStore, queryErr := none, writeErr := none }]
      = .looping
          { polls := 4, delivered := [[sampleBuild]], encErr := some "broken pipe",
            stdout := "Error from SQL: broken pipeError from SQL: broken pipe"
              ++ "Error from SQL: broken pipe",
            sleeps := 4 }
    ∧ (∀ (w : Watch) (passes : List (Store × Option String)),
        ∃ w' : Watch,
          watchLoop w
              (passes.map fun p => { store := p.1, queryErr := none, writeErr := p.2 })
            = .looping w'
          ∧ w'.polls = w.polls + passes.length)
    ∧ ∀ (polls sleeps : Nat) (delivered : List (List Build)) (e out : String)
        (passes : List (Store × Option String)),
        ∃ w' : Watch,
          watchLoop
              { polls := polls, delivered := delivered, encErr := some e, stdout := out,
                sleeps := sleeps }
              (passes.map fun p => { store := p.1, queryErr := none, writeErr := p.2 })
            = .looping w'
          ∧ w'.polls = polls + passes.length
          ∧ w'.delivered = delivered := by
  have hq : ∀ passes : List (Store × Option String),
      ∀ t ∈ passes.map (fun p => ({ store := p.1, queryErr := none, writeErr := p.2 } : Tick)),
        t.queryErr = none := by
    intro passes t ht
    obtain ⟨p, -, rfl⟩ := List.mem_map.mp ht
    rfl
  refine ⟨by decide, ?_, ?_⟩
  · intro w passes
    obtain ⟨w', h1, h2, -, -⟩ := watchLoop_looping w _ (hq passes)
    exact ⟨w', h1, by rw [h2, List.length_map]⟩
  · intro polls sleeps delivered e out passes
    obtain ⟨w', h1, h2, -, h4⟩ := watchLoop_looping
      { polls := polls, delivered := delivered, encErr := some e, stdout := out,
        sleeps := sleeps } _ (hq passes)
    exact ⟨w', h1, by rw [h2, List.length_map], (h4 e rfl).2⟩

/-! ## Theorems: `Build.Elapsed` -/

theorem bitLenAux_spec (fuel n : Nat) (h : n ≤ fuel) (hn : 0 < n) :
    2 ^ (bitLenAux fuel n - 1) ≤ n ∧ n < 2 ^ bitLenAux fuel n ∧ 0 < bitLenAux fuel n := by
  induction fuel generalizing n with
  | zero => omega
  | succ f ih =>
    have hne : n ≠ 0 := by omega
    simp only [bitLenAux, if_neg hne]
    by_cases h2 : n / 2 = 0
    · have h1 : n = 1 := by omega
      subst h1
      have h0 : bitLenAux f (1 / 2) = 0 := by cases f <;> simp [bitLenAux]
      simp [h0]
    · obtain ⟨a, b, c⟩ := ih (n / 2) (by omega) (by omega)
      refine ⟨?_, ?_, by omega⟩
      · have e : bitLenAux f (n / 2) + 1 - 1 = (bitLenAux f (n / 2) - 1) + 1 := by omega
        rw [e, pow_succ]; omega
      · rw [pow_succ]; omega

theorem bitLen_spec (n : Nat) (hn : 0 < n) :
    2 ^ (bitLen n - 1) ≤ n ∧ n < 2 ^ bitLen n ∧ 0 < bitLen n :=
  bitLenAux_spec n n le_rfl hn

theorem roundHalfEven_ge (N D K : Nat) (hD : 0 < D) (h : K * D ≤ N) :
    K ≤ roundHalfEven N D := by
  have hq : K ≤ N / D := (Nat.le_div_iff_mul_le hD).mpr h
  unfold roundHalfEven
  split_ifs <;> omega

theorem roundHalfEven_le (N D K : Nat) (hD : 0 < D) (h : N ≤ K * D) :
    roundHalfEven N D ≤ K := by
  rcases Nat.eq_or_lt_of_le h with h | h
  · subst h
    have h1 : K * D % D = 0 := Nat.mul_mod_left K D
    have h2 : K * D / D = K := Nat.mul_div_cancel K hD
    unfold roundHalfEven
    rw [h1, h2]
    simp [hD]
  · have hq : N / D < K := (Nat.div_lt_iff_lt_mul hD).mpr h
    unfold roundHalfEven
    split_ifs <;> omega

theorem roundHalfEven_lt (N D K : Nat) (hD : 0 < D) (h : 2 * N + D < 2 * (K * D)) :
    roundHalfEven N D < K := by
  have hdm := Nat.div_add_mod N D
  have hq : N / D < K := (Nat.div_lt_iff_lt_mul hD).mpr (by omega)
  by_cases hr : 2 * (N % D) < D
  · unfold roundHalfEven
    rw [if_pos hr]; exact hq
  · have hK : N / D + 1 < K := by
      by_contra hc
      have hle : K ≤ N / D + 1 := by omega
      have h3 : K * D ≤ (N / D + 1) * D := Nat.mul_le_mul_right D hle
      have h4 : (N / D + 1) * D = D * (N / D) + D := by ring
      omega
    unfold roundHalfEven
    split_ifs <;> omega

theorem roundHalfEven_two_mul_le (N D : Nat) (hD : 0 < D) :
    2 * (roundHalfEven N D * D) ≤ 2 * N + D := by
  have hdm := Nat.div_add_mod N D
  have hmod := Nat.mod_lt N hD
  have h4 : (N / D + 1) * D = D * (N / D) + D := by ring
  have h5 : N / D * D = D * (N / D) := by ring
  unfold roundHalfEven
  split_ifs <;> omega

theorem two_pow_toNat_div (s : ℤ) :
    ((2 : ℚ) ^ s.toNat) / (2 : ℚ) ^ (-s).toNat = (2 : ℚ) ^ s := by
  rcases le_total 0 s with h | h
  · have h1 : (-s).toNat = 0 := by omega
    rw [h1, pow_zero, div_one, ← zpow_natCast, Int.toNat_of_nonneg h]
  · have h1 : s.toNat = 0 := by omega
    rw [h1, pow_zero, ← zpow_natCast, Int.toNat_of_nonneg (by omega : 0 ≤ -s), zpow_neg,
      one_div, inv_inv]

theorem bitLen_spec_rat (n : Nat) (hn : 0 < n) :
    (2 : ℚ) ^ ((bitLen n : ℤ) - 1) ≤ n ∧ (n : ℚ) < (2 : ℚ) ^ (bitLen n : ℤ) := by
  obtain ⟨h1, h2, h3⟩ := bitLen_spec n hn
  constructor
  · have e : ((bitLen n : ℤ) - 1) = ((bitLen n - 1 : ℕ) : ℤ) := by omega
    rw [e, zpow_natCast]
    exact_mod_cast h1
  · rw [zpow_natCast]
    exact_mod_cast h2

theorem roundPos_spec (n d : ℕ) (e : ℤ) (hn : 0 < n) (hd : 0 < d) :
    ∃ N D : ℕ, 0 < D ∧ (roundPos n d e).1 = roundHalfEven N D
      ∧ 2 ^ 52 * D ≤ N ∧ N < 2 ^ 53 * D
      ∧ (N : ℚ) / D * (2 : ℚ) ^ (roundPos n d e).2 = (n : ℚ) / d * (2 : ℚ) ^ e := by
  obtain ⟨n1, n2⟩ := bitLen_spec_rat n hn
  obtain ⟨d1, d2⟩ := bitLen_spec_rat d hd
  have hnq : (0 : ℚ) < n := by exact_mod_cast hn
  have hdq : (0 : ℚ) < d := by exact_mod_cast hd
  obtain ⟨s, hs⟩ : ∃ s : ℤ, s = 53 - ((bitLen n : ℤ) - (bitLen d : ℤ)) := ⟨_, rfl⟩
  obtain ⟨N0, hN0⟩ : ∃ N0 : ℕ, N0 = n * 2 ^ s.toNat := ⟨_, rfl⟩
  obtain ⟨D0, hD0⟩ : ∃ D0 : ℕ, D0 = d * 2 ^ (-s).toNat := ⟨_, rfl⟩
  have hD0pos : 0 < D0 := by rw [hD0]; positivity
  have hD0q : (0 : ℚ) < D0 := by exact_mod_cast hD0pos
  have hx : (N0 : ℚ) / D0 = (n : ℚ) / d * (2 : ℚ) ^ s := by
    rw [hN0, hD0]; push_cast
    rw [← two_pow_toNat_div s]; field_simp
  have h2s : (0 : ℚ) < (2 : ℚ) ^ s := by positivity
  have hlo : (2 : ℚ) ^ (52 : ℤ) ≤ (n : ℚ) / d * (2 : ℚ) ^ s := by
    have h1 : (2 : ℚ) ^ ((bitLen n : ℤ) - 1) / (2 : ℚ) ^ (bitLen d : ℤ) ≤ (n : ℚ) / d :=
      div_le_div₀ hnq.le n1 hdq d2.le
    have h2 : (2 : ℚ) ^ (52 : ℤ)
        = (2 : ℚ) ^ ((bitLen n : ℤ) - 1) / (2 : ℚ) ^ (bitLen d : ℤ) * (2 : ℚ) ^ s := by
      rw [← zpow_sub₀ (by norm_num), ← zpow_add₀ (by norm_num)]
      congr 1; omega
    rw [h2]
    exact mul_le_mul_of_nonneg_right h1 h2s.le
  have hhi : (n : ℚ) / d * (2 : ℚ) ^ s < (2 : ℚ) ^ (54 : ℤ) := by
    have hp : (0 : ℚ) < (2 : ℚ) ^ ((bitLen d : ℤ) - 1) := by positivity
    have h1 : (n : ℚ) / d < (2 : ℚ) ^ (bitLen n : ℤ) / (2 : ℚ) ^ ((bitLen d : ℤ) - 1) :=
      div_lt_div₀ n2 d1 (by positivity) hp
    have h2 : (2 : ℚ) ^ (54 : ℤ)
        = (2 : ℚ) ^ (bitLen n : ℤ) / (2 : ℚ) ^ ((bitLen d : ℤ) - 1) * (2 : ℚ) ^ s := by
      rw [← zpow_sub₀ (by norm_num), ← zpow_add₀ (by norm_num)]
      congr 1; omega
    rw [h2]
    exact mul_lt_mul_of_pos_right h1 h2s
  have hlo' : 2 ^ 52 * D0 ≤ N0 := by
    have h : (2 : ℚ) ^ (52 : ℕ) * (D0 : ℚ) ≤ (N0 : ℚ) := by
      rw [← hx, le_div_iff₀ hD0q] at hlo
      exact_mod_cast hlo
    exact_mod_cast h
  have hhi' : N0 < 2 ^ 54 * D0 := by
    have h : (N0 : ℚ) < (2 : ℚ) ^ (54 : ℕ) * (D0 : ℚ) := by
      rw [← hx, div_lt_iff₀ hD0q] at hhi
      exact_mod_cast hhi
    exact_mod_cast h
  have hr : roundPos n d e
      = if N0 / D0 < 2 ^ 53 then (roundHalfEven N0 D0, e - s)
        else (roundHalfEven N0 (2 * D0), e - s + 1) := by
    rw [hN0, hD0, hs]; rfl
  by_cases hb : N0 / D0 < 2 ^ 53
  · rw [hr, if_pos hb]
    refine ⟨N0, D0, hD0pos, rfl, hlo', (Nat.div_lt_iff_lt_mul hD0pos).mp hb, ?_⟩
    simp only
    rw [hx, mul_assoc, ← zpow_add₀ (by norm_num)]
    congr 2; omega
  · rw [hr, if_neg hb]
    have hge : 2 ^ 53 * D0 ≤ N0 := by
      have := (Nat.div_lt_iff_lt_mul hD0pos).not.mp hb
      omega
    refine ⟨N0, 2 * D0, by omega, rfl, by omega, by omega, ?_⟩
    simp only
    have e1 : ((N0 : ℚ)) / ((2 * D0 : ℕ) : ℚ) = (N0 : ℚ) / D0 * (2 : ℚ) ^ (-1 : ℤ) := by
      push_cast
      rw [zpow_neg, zpow_one, ← div_eq_mul_inv, div_div, mul_comm]
    rw [e1, hx, mul_assoc, mul_assoc, ← zpow_add₀ (by norm_num), ← zpow_add₀ (by norm_num)]
    congr 2; omega

theorem round_false_zero (d : ℕ) (e : ℤ) : F64.round false 0 d e = { m := 0, e := 0 } := by
  simp [F64.round]

theorem round_false_pos (n d : ℕ) (e : ℤ) (hn : 0 < n) :
    F64.round false n d e
      = { m := ((roundPos n d e).1 : ℤ), e := (roundPos n d e).2 } := by
  have hne : n ≠ 0 := by omega
  simp [F64.round, hne]

theorem two_zpow_neg_toNat (e : ℤ) (he : e ≤ 0) :
    (2 : ℚ) ^ e * (2 : ℚ) ^ (-e).toNat = 1 := by
  rw [← zpow_natCast, Int.toNat_of_nonneg (by omega : 0 ≤ -e), ← zpow_add₀ (by norm_num)]
  simp

theorem ofInt_nat (q : ℕ) (hq : q < 2 ^ 53) :
    0 ≤ (F64.ofInt (q : ℤ)).m ∧ (F64.ofInt (q : ℤ)).val = q := by
  have hdec : decide ((q : ℤ) < 0) = false := by simp
  have hofInt : F64.ofInt (q : ℤ) = F64.round false q 1 0 := by
    simp only [F64.ofInt, hdec, Int.natAbs_ofNat]
  rw [hofInt]
  rcases Nat.eq_zero_or_pos q with h0 | hpos
  · subst h0
    rw [round_false_zero]
    simp [F64.val]
  · rw [round_false_pos q 1 0 hpos]
    obtain ⟨N, D, hD, hm, hlo, hhi, hv⟩ := roundPos_spec q 1 0 hpos Nat.one_pos
    have hDq : (0 : ℚ) < D := by exact_mod_cast hD
    simp only [Nat.cast_one, div_one, zpow_zero, mul_one] at hv
    have hloq : (2 : ℚ) ^ (52 : ℕ) ≤ (N : ℚ) / D := by
      rw [le_div_iff₀ hDq]; exact_mod_cast hlo
    have hqq : (q : ℚ) < (2 : ℚ) ^ (53 : ℕ) := by exact_mod_cast hq
    have he : (roundPos q 1 0).2 ≤ 0 := by
      by_contra hc
      have h1 : (1 : ℤ) ≤ (roundPos q 1 0).2 := by omega
      have h2 : (2 : ℚ) ^ (1 : ℤ) ≤ (2 : ℚ) ^ (roundPos q 1 0).2 :=
        zpow_le_zpow_right₀ (by norm_num) h1
      have h3 : (2 : ℚ) ^ (52 : ℕ) * (2 : ℚ) ^ (1 : ℤ)
          ≤ (N : ℚ) / D * (2 : ℚ) ^ (roundPos q 1 0).2 :=
        mul_le_mul hloq h2 (by positivity) (by positivity)
      rw [hv] at h3
      norm_num at h3 hqq
      linarith
    have hone := two_zpow_neg_toNat _ he
    -- N = q * 2 ^ t * D
    have hND : (N : ℚ) = ((q * 2 ^ (-(roundPos q 1 0).2).toNat * D : ℕ) : ℚ) := by
      push_cast
      have : (N : ℚ) / D = (q : ℚ) * (2 : ℚ) ^ (-(roundPos q 1 0).2).toNat := by
        rw [← hv, mul_assoc, hone, mul_one]
      rw [div_eq_iff hDq.ne'] at this
      exact this
    have hNDn : N = q * 2 ^ (-(roundPos q 1 0).2).toNat * D := by exact_mod_cast hND
    have hrne : roundHalfEven N D = q * 2 ^ (-(roundPos q 1 0).2).toNat :=
      le_antisymm (roundHalfEven_le N D _ hD hNDn.le) (roundHalfEven_ge N D _ hD hNDn.ge)
    constructor
    · simp
    · simp only [F64.val, hm, hrne]
      push_cast
      rw [mul_assoc, mul_comm ((2 : ℚ) ^ _) _, hone, mul_one]

theorem div_frac (x y : F64) (hx : 0 ≤ x.m) (hy : 0 < y.m) (hlt : x.val < y.val) :
    0 ≤ (F64.div x y).m
    ∧ (F64.div x y).val ≤ x.val / y.val + (2 : ℚ) ^ (-54 : ℤ) := by
  have hdiv : F64.div x y = F64.round false x.m.natAbs y.m.natAbs (x.e - y.e) := by
    have h1 : decide (x.m < 0) = false := by simp [hx]
    have h2 : decide (y.m < 0) = false := by simp [hy.le]
    simp [F64.div, h1, h2]
  have hyq : (0 : ℚ) < (y.m : ℚ) := by exact_mod_cast hy
  have hyv : 0 < y.val := by unfold F64.val; positivity
  have hxv : 0 ≤ x.val := by
    unfold F64.val
    have : (0 : ℚ) ≤ (x.m : ℚ) := by exact_mod_cast hx
    positivity
  rw [hdiv]
  rcases Nat.eq_zero_or_pos x.m.natAbs with h0 | hpos
  · rw [h0, round_false_zero]
    refine ⟨le_rfl, ?_⟩
    have : (0 : ℚ) ≤ x.val / y.val := div_nonneg hxv hyv.le
    simp only [F64.val, Int.cast_zero, zero_mul]
    positivity
  · rw [round_false_pos _ _ _ hpos]
    have hypos : 0 < y.m.natAbs := Int.natAbs_pos.mpr hy.ne'
    obtain ⟨N, D, hD, hm, hlo, hhi, hv⟩ :=
      roundPos_spec x.m.natAbs y.m.natAbs (x.e - y.e) hpos hypos
    have hDq : (0 : ℚ) < D := by exact_mod_cast hD
    have hxa : ((x.m.natAbs : ℕ) : ℚ) = (x.m : ℚ) := by
      rw [← Int.cast_natCast, Int.natAbs_of_nonneg hx]
    have hya : ((y.m.natAbs : ℕ) : ℚ) = (y.m : ℚ) := by
      rw [← Int.cast_natCast, Int.natAbs_of_nonneg hy.le]
    have hratio : x.val / y.val
        = (x.m.natAbs : ℚ) / (y.m.natAbs : ℚ) * (2 : ℚ) ^ (x.e - y.e) := by
      rw [hxa, hya, zpow_sub₀ (by norm_num)]
      unfold F64.val
      field_simp
    rw [← hratio] at hv
    have hlt1 : x.val / y.val < 1 := (div_lt_one hyv).mpr hlt
    have hloq : (2 : ℚ) ^ (52 : ℕ) ≤ (N : ℚ) / D := by
      rw [le_div_iff₀ hDq]; exact_mod_cast hlo
    have he : (roundPos x.m.natAbs y.m.natAbs (x.e - y.e)).2 ≤ -53 := by
      by_contra hc
      have h1 : (-52 : ℤ) ≤ (roundPos x.m.natAbs y.m.natAbs (x.e - y.e)).2 := by omega
      have h2 : (2 : ℚ) ^ (-52 : ℤ)
          ≤ (2 : ℚ) ^ (roundPos x.m.natAbs y.m.natAbs (x.e - y.e)).2 :=
        zpow_le_zpow_right₀ (by norm_num) h1
      have h3 : (2 : ℚ) ^ (52 : ℕ) * (2 : ℚ) ^ (-52 : ℤ)
          ≤ (N : ℚ) / D * (2 : ℚ) ^ (roundPos x.m.natAbs y.m.natAbs (x.e - y.e)).2 :=
        mul_le_mul hloq h2 (by positivity) (by positivity)
      rw [hv] at h3
      have h4 : (2 : ℚ) ^ (52 : ℕ) * (2 : ℚ) ^ (-52 : ℤ) = 1 := by
        rw [← zpow_natCast, ← zpow_add₀ (by norm_num)]; simp
      rw [h4] at h3
      linarith
    have hhalf := roundHalfEven_two_mul_le N D hD
    have hhalfq : (roundHalfEven N D : ℚ) ≤ (N : ℚ) / D + 1 / 2 := by
      have h1 : (2 : ℚ) * ((roundHalfEven N D : ℚ) * D) ≤ 2 * N + D := by exact_mod_cast hhalf
      rw [div_add_div _ _ hDq.ne' (by norm_num), le_div_iff₀ (by positivity)]
      nlinarith
    have hpe : (0 : ℚ) < (2 : ℚ) ^ (roundPos x.m.natAbs y.m.natAbs (x.e - y.e)).2 := by
      positivity
    have hpe2 : (2 : ℚ) ^ (roundPos x.m.natAbs y.m.natAbs (x.e - y.e)).2
        ≤ (2 : ℚ) ^ (-53 : ℤ) := zpow_le_zpow_right₀ (by norm_num) he
    constructor
    · simp
    · have hval : F64.val { m := ((roundPos x.m.natAbs y.m.natAbs (x.e - y.e)).1 : ℤ),
                            e := (roundPos x.m.natAbs y.m.natAbs (x.e - y.e)).2 }
          = (roundHalfEven N D : ℚ)
            * (2 : ℚ) ^ (roundPos x.m.natAbs y.m.natAbs (x.e - y.e)).2 := by
        simp only [F64.val, hm]
        push_cast
        rfl
      rw [hval]
      have h7 : (1 : ℚ) / 2 * (2 : ℚ) ^ (-53 : ℤ) = (2 : ℚ) ^ (-54 : ℤ) := by
        norm_num [zpow_neg]
      calc (roundHalfEven N D : ℚ)
            * (2 : ℚ) ^ (roundPos x.m.natAbs y.m.natAbs (x.e - y.e)).2
          ≤ ((N : ℚ) / D + 1 / 2)
            * (2 : ℚ) ^ (roundPos x.m.natAbs y.m.natAbs (x.e - y.e)).2 :=
            mul_le_mul_of_nonneg_right hhalfq hpe.le
        _ = x.val / y.val
            + 1 / 2 * (2 : ℚ) ^ (roundPos x.m.natAbs y.m.natAbs (x.e - y.e)).2 := by
            rw [add_mul, hv]
        _ ≤ x.val / y.val + 1 / 2 * (2 : ℚ) ^ (-53 : ℤ) := by
            have := mul_le_mul_of_nonneg_left hpe2 (by norm_num : (0 : ℚ) ≤ 1 / 2)
            linarith
        _ = x.val / y.val + (2 : ℚ) ^ (-54 : ℤ) := by rw [h7]

theorem shift_val (m e e0 : ℤ) (h : e0 ≤ e) :
    ((m * 2 ^ (e - e0).toNat : ℤ) : ℚ) * (2 : ℚ) ^ e0 = (m : ℚ) * (2 : ℚ) ^ e := by
  push_cast
  rw [mul_assoc, ← zpow_natCast, Int.toNat_of_nonneg (by omega : 0 ≤ e - e0),
    ← zpow_add₀ (by norm_num)]
  congr 2; omega

theorem toInt_add (x y : F64) (q K : ℕ) (δ : ℚ) (hx : 0 ≤ x.m) (hxv : x.val = q)
    (hy : 0 ≤ y.m) (hyv : y.val ≤ 1 - δ) (hq : q < 2 ^ K) (hK : K ≤ 52)
    (hδ : 1 < δ * (2 : ℚ) ^ (54 - K)) : (F64.add x y).toInt = q := by
  obtain ⟨e, he⟩ : ∃ e : ℤ, e = min x.e y.e := ⟨_, rfl⟩
  obtain ⟨sum, hsum⟩ : ∃ sum : ℤ,
      sum = x.m * 2 ^ (x.e - e).toNat + y.m * 2 ^ (y.e - e).toNat := ⟨_, rfl⟩
  have hex : e ≤ x.e := by rw [he]; exact min_le_left _ _
  have hey : e ≤ y.e := by rw [he]; exact min_le_right _ _
  have hsum0 : 0 ≤ sum := by rw [hsum]; positivity
  have hV : (sum : ℚ) * (2 : ℚ) ^ e = x.val + y.val := by
    rw [hsum, Int.cast_add, add_mul, shift_val _ _ _ hex, shift_val _ _ _ hey]
    rfl
  have hadd : F64.add x y = F64.round false sum.natAbs 1 e := by
    have hd : decide (sum < 0) = false := by simp [hsum0]
    simp only [F64.add, ← he, ← hsum, hd]
  have hy0 : 0 ≤ y.val := by
    unfold F64.val
    have : (0 : ℚ) ≤ (y.m : ℚ) := by exact_mod_cast hy
    positivity
  have hδ0 : 0 < δ := by
    by_contra hc
    have h1 : δ * (2 : ℚ) ^ (54 - K) ≤ 0 :=
      mul_nonpos_of_nonpos_of_nonneg (not_lt.mp hc) (by positivity)
    linarith
  have hqq : (q : ℚ) + 1 ≤ (2 : ℚ) ^ K := by
    have : q + 1 ≤ 2 ^ K := hq
    exact_mod_cast this
  have habs : ((sum.natAbs : ℕ) : ℚ) = (sum : ℚ) := by
    rw [← Int.cast_natCast, Int.natAbs_of_nonneg hsum0]
  rw [hadd]
  rcases Nat.eq_zero_or_pos sum.natAbs with h0 | hpos
  · rw [h0, round_false_zero]
    have hs0 : sum = 0 := Int.natAbs_eq_zero.mp h0
    rw [hs0] at hV
    simp only [Int.cast_zero, zero_mul] at hV
    have hq0 : (q : ℚ) ≤ 0 := by linarith
    have hq0' : q = 0 := by
      have : q ≤ 0 := by exact_mod_cast hq0
      omega
    subst hq0'
    simp [F64.toInt]
  · rw [round_false_pos _ _ _ hpos]
    obtain ⟨N, D, hD, hm, hlo, hhi, hv⟩ := roundPos_spec sum.natAbs 1 e hpos Nat.one_pos
    obtain ⟨e', he'⟩ : ∃ e' : ℤ, e' = (roundPos sum.natAbs 1 e).2 := ⟨_, rfl⟩
    rw [← he'] at hv ⊢
    have hDq : (0 : ℚ) < D := by exact_mod_cast hD
    simp only [Nat.cast_one, div_one] at hv
    rw [habs, hV, hxv] at hv
    have hloq : (2 : ℚ) ^ (52 : ℕ) ≤ (N : ℚ) / D := by
      rw [le_div_iff₀ hDq]; exact_mod_cast hlo
    have hVlt : (q : ℚ) + y.val < (2 : ℚ) ^ K := by linarith
    have hele : e' ≤ (K : ℤ) - 53 := by
      by_contra hc
      have h1 : (K : ℤ) - 52 ≤ e' := by omega
      have h2 : (2 : ℚ) ^ ((K : ℤ) - 52) ≤ (2 : ℚ) ^ e' :=
        zpow_le_zpow_right₀ (by norm_num) h1
      have h3 : (2 : ℚ) ^ (52 : ℕ) * (2 : ℚ) ^ ((K : ℤ) - 52)
          ≤ (N : ℚ) / D * (2 : ℚ) ^ e' :=
        mul_le_mul hloq h2 (by positivity) (by positivity)
      have h4 : (2 : ℚ) ^ (52 : ℕ) * (2 : ℚ) ^ ((K : ℤ) - 52) = (2 : ℚ) ^ K := by
        rw [← zpow_natCast, ← zpow_natCast, ← zpow_add₀ (by norm_num)]
        congr 1; push_cast; ring
      rw [h4, hv] at h3
      linarith
    have hneg : e' ≤ 0 := by omega
    obtain ⟨t, ht⟩ : ∃ t : ℕ, t = (-e').toNat := ⟨_, rfl⟩
    have htK : 54 - K ≤ t + 1 := by omega
    have hone : (2 : ℚ) ^ e' * (2 : ℚ) ^ t = 1 := by
      rw [ht]; exact two_zpow_neg_toNat e' hneg
    have hNDV : (N : ℚ) / D = ((q : ℚ) + y.val) * (2 : ℚ) ^ t := by
      rw [← hv, mul_assoc, hone, mul_one]
    have h2t : (0 : ℚ) < (2 : ℚ) ^ t := by positivity
    have hlower : q * 2 ^ t * D ≤ N := by
      have h1 : ((q : ℚ) * (2 : ℚ) ^ t) * D ≤ N := by
        rw [← le_div_iff₀ hDq, hNDV]
        exact mul_le_mul_of_nonneg_right (by linarith) h2t.le
      exact_mod_cast h1
    have hupper : 2 * N + D < 2 * ((q + 1) * 2 ^ t * D) := by
      have hpow : (2 : ℚ) ^ (54 - K) ≤ (2 : ℚ) ^ (t + 1) :=
        pow_le_pow_right₀ (by norm_num) htK
      have h1 : 1 < δ * (2 : ℚ) ^ (t + 1) :=
        lt_of_lt_of_le hδ (mul_le_mul_of_nonneg_left hpow hδ0.le)
      have h2 : 2 * ((N : ℚ) / D) + 1 < 2 * (((q : ℚ) + 1) * (2 : ℚ) ^ t) := by
        rw [hNDV]
        have h3 : ((q : ℚ) + y.val) * (2 : ℚ) ^ t ≤ ((q : ℚ) + 1 - δ) * (2 : ℚ) ^ t :=
          mul_le_mul_of_nonneg_right (by linarith) h2t.le
        rw [pow_succ] at h1
        nlinarith
      have h4 : 2 * (N : ℚ) + D < 2 * (((q : ℚ) + 1) * (2 : ℚ) ^ t * D) := by
        have h5 := mul_lt_mul_of_pos_right h2 hDq
        have h6 : (2 * ((N : ℚ) / D) + 1) * D = 2 * N + D := by
          field_simp
        rw [h6] at h5
        linarith
      exact_mod_cast h4
    have hge := roundHalfEven_ge N D (q * 2 ^ t) hD hlower
    have hlt := roundHalfEven_lt N D ((q + 1) * 2 ^ t) hD hupper
    have hdivq : roundHalfEven N D / 2 ^ t = q := Nat.div_eq_of_lt_le hge hlt
    have hnn : ¬ (0 : ℤ) ≤ e' := by
      have : e' ≤ -1 := by omega
      omega
    simp only [F64.toInt, hnn, if_false, hm, ← ht]
    have : ((2 : ℤ) ^ t) = (((2 ^ t : ℕ)) : ℤ) := by push_cast; rfl
    rw [this, ← Int.ofNat_tdiv, hdivq]

theorem toInt_split (q n Dn K : ℕ) (hn : n < Dn) (hD : Dn < 2 ^ 53) (hq : q < 2 ^ K)
    (hK : K ≤ 52) (hδ : 1 < ((1 : ℚ) / Dn - (2 : ℚ) ^ (-54 : ℤ)) * (2 : ℚ) ^ (54 - K)) :
    (F64.add (F64.ofInt (q : ℤ))
      (F64.div (F64.ofInt (n : ℤ)) (F64.ofInt (Dn : ℤ)))).toInt = q := by
  have hq53 : q < 2 ^ 53 :=
    lt_of_lt_of_le hq (Nat.pow_le_pow_right (by norm_num) (by omega))
  obtain ⟨q1, q2⟩ := ofInt_nat q hq53
  obtain ⟨n1, n2⟩ := ofInt_nat n (by omega)
  obtain ⟨d1, d2⟩ := ofInt_nat Dn hD
  have hDpos : 0 < Dn := by omega
  have hDq : (0 : ℚ) < Dn := by exact_mod_cast hDpos
  have hdm : 0 < (F64.ofInt (Dn : ℤ)).m := by
    rcases lt_or_eq_of_le d1 with h | h
    · exact h
    · exfalso
      rw [F64.val, ← h] at d2
      simp only [Int.cast_zero, zero_mul] at d2
      linarith
  have hlt : (F64.ofInt (n : ℤ)).val < (F64.ofInt (Dn : ℤ)).val := by
    rw [n2, d2]; exact_mod_cast hn
  obtain ⟨y1, y2⟩ := div_frac _ _ n1 hdm hlt
  rw [n2, d2] at y2
  have hnD : (n : ℚ) / Dn ≤ 1 - 1 / Dn := by
    have h1 : (n : ℚ) + 1 ≤ Dn := by exact_mod_cast hn
    rw [div_le_iff₀ hDq, sub_mul, one_mul, div_mul_cancel₀ _ hDq.ne']
    linarith
  exact toInt_add _ _ q K _ q1 q2 y1 (by linarith) hq hK hδ

theorem Seconds_natCast (D : ℕ) (h : D < 16777216 * 1000000000) :
    (Seconds (D : ℤ)).toInt = ((D / 1000000000 : ℕ) : ℤ) := by
  have h1 : (D : ℤ).tdiv Second = ((D / 1000000000 : ℕ) : ℤ) := rfl
  have h2 : (D : ℤ).tmod Second = ((D % 1000000000 : ℕ) : ℤ) := rfl
  have h3 : (1000000000 : ℤ) = ((1000000000 : ℕ) : ℤ) := rfl
  unfold Seconds
  rw [h1, h2, h3]
  apply toInt_split _ _ _ 24
  · exact Nat.mod_lt _ (by norm_num)
  · norm_num
  · rw [Nat.div_lt_iff_lt_mul (by norm_num)]; norm_num; omega
  · norm_num
  · norm_num

theorem Minutes_natCast (D : ℕ) (h : D < 262144 * 60000000000) :
    (Minutes (D : ℤ)).toInt = ((D / 60000000000 : ℕ) : ℤ) := by
  have h1 : (D : ℤ).tdiv Minute = ((D / 60000000000 : ℕ) : ℤ) := rfl
  have h2 : (D : ℤ).tmod Minute = ((D % 60000000000 : ℕ) : ℤ) := rfl
  have h3 : (60000000000 : ℤ) = ((60000000000 : ℕ) : ℤ) := rfl
  unfold Minutes
  rw [h1, h2, h3]
  apply toInt_split _ _ _ 18
  · exact Nat.mod_lt _ (by norm_num)
  · norm_num
  · rw [Nat.div_lt_iff_lt_mul (by norm_num)]; norm_num; omega
  · norm_num
  · norm_num

theorem round_zero (neg : Bool) (d : ℕ) (e : ℤ) :
    F64.round neg 0 d e = { m := 0, e := 0 } := by
  simp [F64.round]

theorem round_true (n d : ℕ) (e : ℤ) :
    F64.round true n d e = (F64.round false n d e).neg := by
  by_cases h : n = 0
  · subst h; simp [F64.round, F64.neg]
  · simp [F64.round, F64.neg, h]

theorem ofInt_neg_natCast (q : ℕ) : F64.ofInt (-(q : ℤ)) = (F64.ofInt (q : ℤ)).neg := by
  rcases Nat.eq_zero_or_pos q with h | h
  · subst h; simp [F64.ofInt, F64.round, F64.neg]
  · have h1 : decide (-(q : ℤ) < 0) = true := by simp; omega
    have h2 : decide ((q : ℤ) < 0) = false := by simp
    simp only [F64.ofInt, h1, h2, Int.natAbs_neg, round_true]

theorem div_m_nonneg (x y : F64) (hx : 0 ≤ x.m) (hy : 0 < y.m) : 0 ≤ (F64.div x y).m := by
  have h1 : decide (x.m < 0) = false := by simp [hx]
  have h2 : decide (y.m < 0) = false := by simp [hy.le]
  have hb : (false != false) = false := rfl
  simp only [F64.div, h1, h2, hb]
  rcases Nat.eq_zero_or_pos x.m.natAbs with h0 | hpos
  · rw [h0, round_zero]
  · rw [round_false_pos _ _ _ hpos]
    exact Int.natCast_nonneg _

theorem div_neg_left (x y : F64) (hx : 0 ≤ x.m) (hy : 0 < y.m) :
    F64.div x.neg y = (F64.div x y).neg := by
  have h2 : decide (y.m < 0) = false := by simp [hy.le]
  have h3 : decide (x.m < 0) = false := by simp [hx]
  have hb1 : (true != false) = true := rfl
  have hb2 : (false != false) = false := rfl
  rcases lt_or_eq_of_le hx with h | h
  · have h1 : decide (-x.m < 0) = true := by simp [h]
    simp only [F64.div, F64.neg, h1, h2, h3, Int.natAbs_neg, hb1, hb2, round_true]
  · simp only [F64.div, F64.neg, ← h, neg_zero, Int.natAbs_zero, round_zero]

theorem add_neg_neg (x y : F64) (hx : 0 ≤ x.m) (hy : 0 ≤ y.m) :
    F64.add x.neg y.neg = (F64.add x y).neg := by
  obtain ⟨sum, hsum⟩ : ∃ sum : ℤ,
      sum = x.m * 2 ^ (x.e - min x.e y.e).toNat + y.m * 2 ^ (y.e - min x.e y.e).toNat :=
    ⟨_, rfl⟩
  have hsum0 : 0 ≤ sum := by rw [hsum]; positivity
  have hneg : -x.m * 2 ^ (x.e - min x.e y.e).toNat + -y.m * 2 ^ (y.e - min x.e y.e).toNat
      = -sum := by rw [hsum]; ring
  have h3 : decide (sum < 0) = false := by simp [hsum0]
  simp only [F64.add, F64.neg, hneg, ← hsum, h3, Int.natAbs_neg]
  rcases lt_or_eq_of_le hsum0 with h | h
  · have h1 : decide (-sum < 0) = true := by simp [h]
    rw [h1, round_true]; rfl
  · rw [← h]; simp [round_zero]

theorem toInt_neg (x : F64) : x.neg.toInt = -x.toInt := by
  unfold F64.toInt F64.neg
  by_cases h : 0 ≤ x.e
  · simp only [h, if_true]; ring
  · simp only [h, if_false, Int.neg_tdiv]

theorem neg_tmod (a b : ℤ) : (-a).tmod b = -(a.tmod b) := by
  rw [Int.tmod_def, Int.tmod_def, Int.neg_tdiv]; ring

theorem ofInt_m_pos (Dn : ℕ) (h0 : 0 < Dn) (hD : Dn < 2 ^ 53) :
    0 < (F64.ofInt (Dn : ℤ)).m := by
  obtain ⟨d1, d2⟩ := ofInt_nat Dn hD
  rcases lt_or_eq_of_le d1 with h | h
  · exact h
  · exfalso
    rw [F64.val, ← h] at d2
    simp only [Int.cast_zero, zero_mul] at d2
    have : (0 : ℚ) < Dn := by exact_mod_cast h0
    linarith

theorem toInt_split_neg (q n Dn : ℕ) (hq : q < 2 ^ 53) (hn : n < 2 ^ 53) (h0 : 0 < Dn)
    (hD : Dn < 2 ^ 53) :
    (F64.add (F64.ofInt (-(q : ℤ)))
      (F64.div (F64.ofInt (-(n : ℤ))) (F64.ofInt (Dn : ℤ)))).toInt
      = -(F64.add (F64.ofInt (q : ℤ))
          (F64.div (F64.ofInt (n : ℤ)) (F64.ofInt (Dn : ℤ)))).toInt := by
  obtain ⟨q1, -⟩ := ofInt_nat q hq
  obtain ⟨n1, -⟩ := ofInt_nat n hn
  have hdm := ofInt_m_pos Dn h0 hD
  rw [ofInt_neg_natCast, ofInt_neg_natCast, div_neg_left _ _ n1 hdm,
    add_neg_neg _ _ q1 (div_m_nonneg _ _ n1 hdm), toInt_neg]

theorem Seconds_neg_natCast (D : ℕ) (h : D < 16777216 * 1000000000) :
    (Seconds (-(D : ℤ))).toInt = -((D / 1000000000 : ℕ) : ℤ) := by
  have h1 : (D : ℤ).tdiv Second = ((D / 1000000000 : ℕ) : ℤ) := rfl
  have h2 : (D : ℤ).tmod Second = ((D % 1000000000 : ℕ) : ℤ) := rfl
  have h3 : (1000000000 : ℤ) = ((1000000000 : ℕ) : ℤ) := rfl
  have hpos := Seconds_natCast D h
  unfold Seconds at hpos ⊢
  rw [h1, h2, h3] at hpos
  rw [Int.neg_tdiv, neg_tmod, h1, h2, h3, toInt_split_neg _ _ _ _ _ (by norm_num)
    (by norm_num), hpos]
  · have : D / 1000000000 ≤ D := Nat.div_le_self _ _
    omega
  · have := Nat.mod_lt D (by norm_num : 0 < 1000000000)
    omega

/-- For every duration above -16777216 seconds and below 262144 minutes (about 194
and 182 days) the formatting of `Build.Elapsed` is the rule of the specification:
the `float64` arithmetic of `Duration.Seconds` and `Duration.Minutes` is exact
there. -/
theorem formatElapsed_eq_ruleFormat (d : ℤ)
    (hlo : -(16777216 * 1000000000) < d) (hhi : d < 262144 * 60000000000) :
    formatElapsed d = ruleFormat d := by
  have hS : (Seconds d).toInt = d.tdiv Second := by
    rcases le_total 0 d with h | h
    · obtain ⟨D, rfl⟩ := Int.eq_ofNat_of_zero_le h
      rw [Seconds_natCast D (by omega)]; rfl
    · obtain ⟨D, hD⟩ := Int.eq_ofNat_of_zero_le (by omega : 0 ≤ -d)
      have hd : d = -(D : ℤ) := by omega
      rw [hd, Seconds_neg_natCast D (by omega), Int.neg_tdiv]; rfl
  have hmin : (60 : ℤ) * Second = Minute := by decide
  unfold formatElapsed ruleFormat
  rw [hmin, hS]
  by_cases hb : d < Minute
  · rw [if_pos hb, if_pos hb]
  · rw [if_neg hb, if_neg hb]
    have hb' : ¬ d < 60000000000 := hb
    have h0 : 0 ≤ d := by omega
    obtain ⟨D, rfl⟩ := Int.eq_ofNat_of_zero_le h0
    rw [Minutes_natCast D (by omega)]
    have h1 : (D : ℤ).tdiv Minute = ((D / 60000000000 : ℕ) : ℤ) := rfl
    have h2 : ((D : ℤ).tdiv Second).tmod 60 = (D : ℤ).tdiv Second % 60 :=
      Int.tmod_eq_emod (Int.tdiv_nonneg h0 (by decide)) (by decide)
    rw [h1, h2]

/-- Method `Build.Elapsed` follows the rule of the specification whenever the
duration it formats lies above -16777216 seconds and below 262144 minutes. -/
theorem Elapsed_eq_elapsedRule_of_short (b : Build) (now : Time)
    (h : ∀ started, b.StartedAt = some started →
      -(16777216 * 1000000000) < timeSub (b.FinishedAt.getD now) started
      ∧ timeSub (b.FinishedAt.getD now) started < 262144 * 60000000000) :
    b.Elapsed now = elapsedRule b.StartedAt b.FinishedAt now := by
  unfold Build.Elapsed elapsedRule
  cases hs : b.StartedAt with
  | none => rfl
  | some started =>
    obtain ⟨h1, h2⟩ := h started hs
    cases hf : b.FinishedAt with
    | none =>
      rw [hf] at h1 h2
      exact formatElapsed_eq_ruleFormat _ h1 h2
    | some finished =>
      rw [hf] at h1 h2
      exact formatElapsed_eq_ruleFormat _ h1 h2

/-- The bounded rule at a concrete input: a build that ran 125 seconds. -/
theorem Elapsed_eq_elapsedRule_of_short_witness :
    Build.Elapsed { sampleBuild with StartedAt := some 1000,
                                     FinishedAt := some 125000001000 } 7
      = elapsedRule (some 1000) (some 125000001000) 7 :=
  Elapsed_eq_elapsedRule_of_short
    { sampleBuild with StartedAt := some 1000, FinishedAt := some 125000001000 } 7
    (by
      intro started hs
      have h : started = 1000 := (Option.some.inj hs).symm
      subst h
      decide)

/-- C1: a build started at instant 0 and finished 262144 minutes and
59.999999999 seconds later.  `Duration.Minutes` adds `float64(262144)` and
`float64(59999999999)/6e10`; the sum is rounded to 53 bits and becomes 262145, so
`Elapsed` prints "262145m59s" where the rule of the specification gives
"262144m59s".  Likewise the whole seconds of 16777216.999999999 s come out as
16777217 ("279620m17s" for "279620m16s").  The two examples of the specification
and the unset `started_at` come out as the rule says. -/
theorem Elapsed_rounds_up_long_build :
    Build.Elapsed { sampleBuild with StartedAt := some 0,
                                     FinishedAt := some 15728699999999999 } 0
      = "262145m59s"
    ∧ elapsedRule (some 0) (some 15728699999999999) 0 = "262144m59s"
    ∧ (Minutes 15728699999999999).toInt = 262145
    ∧ formatElapsed 16777216999999999 = "279620m17s"
    ∧ ruleFormat 16777216999999999 = "279620m16s"
    ∧ Build.Elapsed { sampleBuild with StartedAt := some 1000, FinishedAt := none }
        45000001000 = "45s"
    ∧ Build.Elapsed { sampleBuild with StartedAt := some 1000,
                                       FinishedAt := some 125000001000 } 7 = "2m5s"
    ∧ Build.Elapsed { sampleBuild with StartedAt := none, FinishedAt := some 5 } 7
      = "0s" := by
  refine ⟨by decide, by decide, by decide, by decide, by decide, by decide, by decide,
    by decide⟩

end BoringCI
